import Mathlib

/-!
# server/v2/cometbft: consensus adapter and default proposal handlers

A shallow embedding of

* `server/v2/cometbft/utils.go`: `validateFinalizeBlockHeight`,
  `GetBlockRetentionHeight`, `checkHalt`, `GetConsensusParams` and the wire
  translation (`intoABCIEvents`, `intoABCITxResults`, `intoABCIValidatorUpdates`,
  `finalizeBlockResponse`);
* `server/v2/cometbft/handlers/defaults.go`: `DefaultProposalHandler.PrepareHandler`
  and `DefaultProposalHandler.ProcessHandler`;
* `x/mint/abci.go`: the reward computed by `BeginBlocker`.

Go's `int64` values are integers in `[-2^63, 2^63)`, `uint64` values are naturals
below `2^64`; every conversion and every wrapping operation of the source is
written out with an explicit reduction modulo `2^64`.
-/

namespace CometBFT

/-! ## Machine integers -/

/-- The conversion `uint64(i)` of Go: the representative of `i` modulo `2^64`
in `[0, 2^64)`. -/
def toUint64 (i : Int) : Nat := (i % 18446744073709551616).toNat

/-- The conversion `int64(u)` of Go applied to an integer value: the
representative modulo `2^64` in `[-2^63, 2^63)`. -/
def wrapInt64 (i : Int) : Int :=
  (i + 9223372036854775808) % 18446744073709551616 - 9223372036854775808

/-- The conversion `int64(u)` of a `uint64`. -/
def toInt64 (u : Nat) : Int := wrapInt64 (u : Int)

/-- Addition of two `uint64` values, wrapping around at `2^64`. -/
def addUint64 (a b : Nat) : Nat := (a + b) % 18446744073709551616

/-- Subtraction of two `int64` values, wrapping around. -/
def subInt64 (a b : Int) : Int := wrapInt64 (a - b)

/-- The values of type `int64`. -/
def IsInt64 (i : Int) : Prop := -9223372036854775808 ≤ i ∧ i < 9223372036854775808

/-- The values of type `uint64`. -/
def IsUint64 (u : Nat) : Prop := u < 18446744073709551616

instance (i : Int) : Decidable (IsInt64 i) := by unfold IsInt64; infer_instance

instance (u : Nat) : Decidable (IsUint64 u) := by unfold IsUint64; infer_instance

/-! ## utils.go -/

/-- Errors returned by the functions of `utils.go`. -/
inductive UtilsError where
  /-- The error `fmt.Errorf("invalid height: %d", req.Height)` -/
  | invalidHeight (height : Int)
  /-- The error of `c.store.StateLatest()`, returned unchanged. -/
  | store (msg : String)
  /-- The error `fmt.Errorf("invalid height: %d; expected: %d", req.Height, expectedHeight)` -/
  | heightMismatch (height : Int) (expected : Nat)
  /-- The error `fmt.Errorf("halt per configuration height %d time %d", HaltHeight, HaltTime)` -/
  | halt (haltHeight haltTime : Nat)
  deriving DecidableEq, Repr

/-- The fields of `Config` read by the functions embedded here (all `uint64`). -/
structure Config where
  MinRetainBlocks : Nat
  HaltHeight : Nat
  HaltTime : Nat
  InitialHeight : Nat
  deriving DecidableEq, Repr

/-- `Consensus.validateFinalizeBlockHeight`. `stateLatest` is what
`c.store.StateLatest()` returns (the last committed height, or an error) and
`reqHeight` is `req.Height`. -/
def validateFinalizeBlockHeight (cfg : Config) (stateLatest : Except String Nat)
    (reqHeight : Int) : Except UtilsError Unit :=
  if reqHeight < 1 then
    .error (.invalidHeight reqHeight)
  else
    match stateLatest with
    | .error e => .error (.store e)
    | .ok lastBlockHeight =>
      let expectedHeight : Nat :=
        if lastBlockHeight = 0 ∧ cfg.InitialHeight > 1 then
          cfg.InitialHeight
        else
          addUint64 lastBlockHeight 1
      if reqHeight ≠ toInt64 expectedHeight then
        .error (.heightMismatch reqHeight expectedHeight)
      else
        .ok ()

/-- The evidence section of the wire-level consensus params
(`cmtproto.EvidenceParams`), as far as `GetBlockRetentionHeight` reads it. -/
structure EvidenceParams where
  MaxAgeNumBlocks : Int
  deriving DecidableEq, Repr

/-- The wire-level `cmtproto.ConsensusParams` as read by
`GetBlockRetentionHeight`: `Evidence` is a pointer and may be nil. -/
structure ConsensusParams where
  Evidence : Option EvidenceParams
  deriving DecidableEq, Repr

/-- The closure `minNonZero` of `GetBlockRetentionHeight`. -/
def minNonZero (x y : Int) : Int :=
  if x = 0 then y
  else if y = 0 then x
  else if x < y then x
  else y

/-- `Consensus.GetBlockRetentionHeight`. `snapshotManager` is `none` for a nil
snapshot manager and otherwise holds the value its
`GetSnapshotBlockRetentionHeights()` returns. -/
def GetBlockRetentionHeight (cfg : Config) (snapshotManager : Option Int)
    (cp : ConsensusParams) (commitHeight : Int) : Int :=
  if cfg.MinRetainBlocks = 0 then 0
  else
    let retentionHeight0 : Int := 0
    let retentionHeight1 : Int :=
      match cp.Evidence with
      | some ev =>
        if ev.MaxAgeNumBlocks > 0 then subInt64 commitHeight ev.MaxAgeNumBlocks
        else retentionHeight0
      | none => retentionHeight0
    let retentionHeight2 : Int :=
      match snapshotManager with
      | some snapshotRetentionHeights =>
        if snapshotRetentionHeights > 0 then
          minNonZero retentionHeight1 (subInt64 commitHeight snapshotRetentionHeights)
        else retentionHeight1
      | none => retentionHeight1
    let v : Int := subInt64 commitHeight (toInt64 cfg.MinRetainBlocks)
    let retentionHeight3 : Int := minNonZero retentionHeight2 v
    if retentionHeight3 ≤ 0 then 0 else retentionHeight3

/-- `Consensus.checkHalt`; `unixTime` is `time.Unix()`, the block time in
seconds since the epoch (an `int64`). -/
def checkHalt (cfg : Config) (height : Int) (unixTime : Int) : Except UtilsError Unit :=
  let halt : Bool :=
    if cfg.HaltHeight > 0 ∧ toUint64 height > cfg.HaltHeight then true
    else if cfg.HaltTime > 0 ∧ unixTime > toInt64 cfg.HaltTime then true
    else false
  if halt then .error (.halt cfg.HaltHeight cfg.HaltTime) else .ok ()

/-! ## handlers/defaults.go -/

/-- The capabilities of the generic transaction type `T` (`transaction.Tx`)
that the proposal pipeline uses: the declared gas limit (`GetGasLimit()`, a
`uint64`) and the length of the encoding (`len(tx.Bytes())`). -/
class Tx (T : Type) where
  GetGasLimit : T → Nat
  EncodedSize : T → Nat

/-- The `Block` section of the App's consensus params (`MaxBytes`, `MaxGas`
are `int64`). -/
structure AppBlockParams where
  MaxBytes : Int
  MaxGas : Int
  deriving DecidableEq, Repr

/-- A `durationpb.Duration`. -/
structure Duration where
  Seconds : Int
  Nanos : Int
  deriving DecidableEq, Repr

/-- The `Evidence` section of the App's consensus params; `MaxAgeDuration` is
a pointer. -/
structure AppEvidenceParams where
  MaxAgeNumBlocks : Int
  MaxAgeDuration : Option Duration
  deriving DecidableEq, Repr

/-- The `Validator` section of the App's consensus params. -/
structure AppValidatorParams where
  PubKeyTypes : List String
  deriving DecidableEq, Repr

/-- The `Version` section of the App's consensus params. -/
structure AppVersionParams where
  App : Nat
  deriving DecidableEq, Repr

/-- The `Abci` section of the App's consensus params. -/
structure AppABCIParams where
  VoteExtensionsEnableHeight : Int
  deriving DecidableEq, Repr

/-- The App's native consensus params message; every section is a pointer and
may be nil. -/
structure AppConsensusParams where
  Block : Option AppBlockParams
  Evidence : Option AppEvidenceParams
  Validator : Option AppValidatorParams
  Version : Option AppVersionParams
  Abci : Option AppABCIParams
  deriving DecidableEq, Repr

/-- What `app.Query` can hand back as its `appmanager.Type` response: a
`*consensusv1.QueryParamsResponse` (whose `Params` pointer may be nil) or a
message of some other type. -/
inductive QueryResponse where
  | QueryParamsResponse (Params : Option AppConsensusParams)
  | Other (typeName : String)
  deriving DecidableEq, Repr

/-- The `req proto.Message` argument of the handlers, by dynamic type. -/
inductive Request where
  /-- A `*abci.RequestPrepareProposal` with its `MaxTxBytes` (`int64`). -/
  | PrepareProposal (MaxTxBytes : Int)
  /-- A `*abci.RequestProcessProposal`. -/
  | ProcessProposal
  /-- A message of any other type. -/
  | Other (typeName : String)
  deriving DecidableEq, Repr

/-- The interface `AppManager[T]`, for the duration of one handler call:
`ValidateTx` (only the error is read by the handlers) and `Query` at a version
(the request is always an empty `QueryParamsRequest`). -/
structure AppManager (T : Type) where
  ValidateTx : T → Except String Unit
  Query : Nat → Except String QueryResponse

/-- Errors a mempool's `Remove` can return: the sentinel `ErrTxNotFound`, an
error wrapping another one, or an unrelated error. -/
inductive MempoolError where
  | ErrTxNotFound
  | Wrap (msg : String) (inner : MempoolError)
  | Other (msg : String)
  deriving DecidableEq, Repr

/-- The test `errors.Is(err, mempool.ErrTxNotFound)`: the sentinel is found
somewhere along the chain of wrapped errors. -/
def MempoolError.isTxNotFound : MempoolError → Bool
  | .ErrTxNotFound => true
  | .Wrap _ inner => inner.isTxNotFound
  | .Other _ => false

/-- A mempool implementation other than the no-op one, for the duration of
one handler call: `Select` gives the transactions its iterator yields, in
order (`iterator.Tx()` is the head, `iterator.Next()` the tail, the nil
iterator the empty list); `Remove` gives the error of `Remove([]T{tx})`. -/
structure MempoolImpl (T : Type) where
  Select : List T → List T
  Remove : T → Option MempoolError

/-- The `mempool` field of the handler: a nil interface, the no-op variant
`NoOpMempool[T]`, or another implementation. -/
inductive Mempool (T : Type) where
  | Nil
  | NoOp
  | Impl (mp : MempoolImpl T)

/-- The test `h.mempool == nil || isNoOp` of both handlers. -/
def Mempool.isNilOrNoOp {T : Type} : Mempool T → Bool
  | .Nil => true
  | .NoOp => true
  | .Impl _ => false

/-- Modelled from the spec: the state of the default `TxSelector`
(`handlers/tx_selector.go` is not among the sources): the accumulated ordered
sequence of transactions with their cumulative encoded size and cumulative
declared gas. -/
structure TxSelector (T : Type) where
  selectedTxs : List T
  totalTxBytes : Nat
  totalTxGas : Nat

/-- Modelled from the spec: `NewDefaultTxSelector`, the selector with nothing
accumulated. -/
def NewDefaultTxSelector {T : Type} : TxSelector T :=
  { selectedTxs := [], totalTxBytes := 0, totalTxGas := 0 }

/-- Modelled from the spec: `TxSelector.SelectTxForProposal(maxBytes, maxGas, tx)`
accumulates `tx` unless doing so would exceed `maxBytes` (cumulative encoded
size) or, when `maxGas > 0`, exceed `maxGas` (cumulative declared gas limit);
it returns `stop = true` once the byte budget has been exhausted and `false`
otherwise, also when the transaction was skipped for exceeding the gas budget. -/
def TxSelector.SelectTxForProposal {T : Type} [Tx T] (ts : TxSelector T)
    (maxTxBytes maxBlockGas : Nat) (tx : T) : Bool × TxSelector T :=
  let ts1 : TxSelector T :=
    if ts.totalTxBytes + Tx.EncodedSize tx ≤ maxTxBytes ∧
        (maxBlockGas = 0 ∨ ts.totalTxGas + Tx.GetGasLimit tx ≤ maxBlockGas) then
      { selectedTxs := ts.selectedTxs ++ [tx]
        totalTxBytes := ts.totalTxBytes + Tx.EncodedSize tx
        totalTxGas := ts.totalTxGas + Tx.GetGasLimit tx }
    else ts
  (decide (ts1.totalTxBytes ≥ maxTxBytes), ts1)

/-- Modelled from the spec: `TxSelector.SelectedTxs()` yields the accumulated
ordered sequence, insertion order preserved. -/
def TxSelector.SelectedTxs {T : Type} (ts : TxSelector T) : List T := ts.selectedTxs

/-- Modelled from the spec: `TxSelector.Clear()` resets the state for reuse. -/
def TxSelector.Clear {T : Type} (_ts : TxSelector T) : TxSelector T := NewDefaultTxSelector

/-- The struct `DefaultProposalHandler[T]`. -/
structure DefaultProposalHandler (T : Type) where
  mempool : Mempool T
  txSelector : TxSelector T

/-- `NewDefaultProposalHandler`. -/
def NewDefaultProposalHandler {T : Type} (mp : Mempool T) : DefaultProposalHandler T :=
  { mempool := mp, txSelector := NewDefaultTxSelector }

/-- Errors returned by the two handlers. -/
inductive HandlerError where
  /-- The error `fmt.Errorf("invalid request type: %T", req)` -/
  | invalidRequestType
  /-- The error of `app.Query`, returned unchanged. -/
  | query (err : String)
  /-- The error `fmt.Errorf("unexpected consensus params response type; ...")` -/
  | unexpectedResponseType
  /-- The error of `mempool.Remove`, returned unchanged. -/
  | remove (err : MempoolError)
  /-- The error `fmt.Errorf("failed to validate tx: %w", err)` -/
  | failedToValidateTx (err : String)
  /-- The error `fmt.Errorf("total tx gas %d exceeds max block gas %d", totalTxGas, maxBlockGas)` -/
  | gasExceeded (totalTxGas maxBlockGas : Nat)
  deriving DecidableEq, Repr

/-- How a call ends: a returned value, a returned error, or a run-time panic
(a nil pointer dereference). -/
inductive Outcome (α : Type) where
  | ok (a : α)
  | error (e : HandlerError)
  | panic
  deriving DecidableEq, Repr

/-- The calls a handler makes on its collaborators, recorded in the order
they happen. -/
inductive Call (T : Type) where
  | Query (version : Nat)
  | ValidateTx (tx : T)
  | MempoolSelect (txs : List T)
  | MempoolRemove (tx : T)
  | SelectTxForProposal (maxTxBytes maxBlockGas : Nat) (tx : T)
  | SelectedTxs
  | Clear
  deriving DecidableEq, Repr

/-- The result of running a handler: how the call ended, the handler with
the state of its `TxSelector` afterwards, and the calls made. -/
structure Run (T α : Type) where
  result : Outcome α
  handler : DefaultProposalHandler T
  calls : List (Call T)

/-- The block `if b := paramsResp.GetParams().Block; b != nil { maxBlockGas = uint64(b.MaxGas) }`
of both handlers. `GetParams()` is nil-safe, the field access `.Block` on the
pointer it returns is not: `none` stands for the nil pointer dereference. -/
def maxBlockGasOf (Params : Option AppConsensusParams) : Option Nat :=
  match Params with
  | none => none
  | some p =>
    match p.Block with
    | some b => some (toUint64 b.MaxGas)
    | none => some 0

/-- The loop `for _, tx := range txs` of the nil/no-op branch of
`PrepareHandler`, on the selector and the calls made so far. -/
def prepareNoOpLoop {T : Type} [Tx T] (maxTxBytes maxBlockGas : Nat) :
    List T → TxSelector T × List (Call T) → TxSelector T × List (Call T)
  | [], st => st
  | tx :: rest, st =>
    let r := st.1.SelectTxForProposal maxTxBytes maxBlockGas tx
    let st1 := (r.2, st.2 ++ [Call.SelectTxForProposal maxTxBytes maxBlockGas tx])
    if r.1 then st1 else prepareNoOpLoop maxTxBytes maxBlockGas rest st1

/-- The loop `for iterator != nil` of the mempool branch of `PrepareHandler`
over the transactions the iterator yields; the first component is the error
the loop returns with, if any. -/
def prepareMempoolLoop {T : Type} [Tx T] (app : AppManager T) (mp : MempoolImpl T)
    (maxTxBytes maxBlockGas : Nat) :
    List T → TxSelector T × List (Call T) → Option MempoolError × TxSelector T × List (Call T)
  | [], st => (none, st)
  | memTx :: next, st =>
    match app.ValidateTx memTx with
    | .error _ =>
      let st1 := (st.1, st.2 ++ [Call.ValidateTx memTx, Call.MempoolRemove memTx])
      match mp.Remove memTx with
      | some err =>
        if !err.isTxNotFound then (some err, st1)
        else prepareMempoolLoop app mp maxTxBytes maxBlockGas next st1
      | none => prepareMempoolLoop app mp maxTxBytes maxBlockGas next st1
    | .ok _ =>
      let r := st.1.SelectTxForProposal maxTxBytes maxBlockGas memTx
      let st1 := (r.2, st.2 ++ [Call.ValidateTx memTx,
        Call.SelectTxForProposal maxTxBytes maxBlockGas memTx])
      if r.1 then (none, st1)
      else prepareMempoolLoop app mp maxTxBytes maxBlockGas next st1

/-- The closure returned by `DefaultProposalHandler.PrepareHandler`. The call
`h.txSelector.Clear()` is deferred once the consensus params have been read and
runs on every return after that point. -/
def PrepareHandler {T : Type} [Tx T] (h : DefaultProposalHandler T) (app : AppManager T)
    (txs : List T) (req : Request) : Run T (List T) :=
  match req with
  | .ProcessProposal => ⟨.error .invalidRequestType, h, []⟩
  | .Other _ => ⟨.error .invalidRequestType, h, []⟩
  | .PrepareProposal MaxTxBytes =>
    match app.Query 0 with
    | .error err => ⟨.error (.query err), h, [.Query 0]⟩
    | .ok (.Other _) => ⟨.error .unexpectedResponseType, h, [.Query 0]⟩
    | .ok (.QueryParamsResponse Params) =>
      match maxBlockGasOf Params with
      | none => ⟨.panic, h, [.Query 0]⟩
      | some maxBlockGas =>
        match h.mempool with
        | .Impl mp =>
          let r := prepareMempoolLoop app mp (toUint64 MaxTxBytes) maxBlockGas (mp.Select txs)
            (h.txSelector, [.Query 0, .MempoolSelect txs])
          match r.1 with
          | some err =>
            ⟨.error (.remove err), { h with txSelector := r.2.1.Clear }, r.2.2 ++ [.Clear]⟩
          | none =>
            ⟨.ok r.2.1.SelectedTxs, { h with txSelector := r.2.1.Clear },
              r.2.2 ++ [.SelectedTxs, .Clear]⟩
        | _ =>
          let r := prepareNoOpLoop (toUint64 MaxTxBytes) maxBlockGas txs (h.txSelector, [.Query 0])
          ⟨.ok r.1.SelectedTxs, { h with txSelector := r.1.Clear }, r.2 ++ [.SelectedTxs, .Clear]⟩

/-- The loop `for _, tx := range txs` of `ProcessHandler`, on the running
`totalTxGas` (a `uint64`) and the calls made so far; the first component is the
error the loop returns with, if any. -/
def processLoop {T : Type} [Tx T] (app : AppManager T) (maxBlockGas : Nat) :
    List T → Nat × List (Call T) → Option HandlerError × List (Call T)
  | [], st => (none, st.2)
  | tx :: rest, st =>
    match app.ValidateTx tx with
    | .error err => (some (.failedToValidateTx err), st.2 ++ [Call.ValidateTx tx])
    | .ok _ =>
      if maxBlockGas > 0 then
        let totalTxGas := addUint64 st.1 (Tx.GetGasLimit tx)
        if totalTxGas > maxBlockGas then
          (some (.gasExceeded totalTxGas maxBlockGas), st.2 ++ [Call.ValidateTx tx])
        else processLoop app maxBlockGas rest (totalTxGas, st.2 ++ [Call.ValidateTx tx])
      else processLoop app maxBlockGas rest (st.1, st.2 ++ [Call.ValidateTx tx])

/-- The closure returned by `DefaultProposalHandler.ProcessHandler`; `ok ()`
is the nil error (ACCEPT). -/
def ProcessHandler {T : Type} [Tx T] (h : DefaultProposalHandler T) (app : AppManager T)
    (txs : List T) (req : Request) : Run T Unit :=
  if h.mempool.isNilOrNoOp then ⟨.ok (), h, []⟩
  else
    match req with
    | .PrepareProposal _ => ⟨.error .invalidRequestType, h, []⟩
    | .Other _ => ⟨.error .invalidRequestType, h, []⟩
    | .ProcessProposal =>
      match app.Query 0 with
      | .error err => ⟨.error (.query err), h, [.Query 0]⟩
      | .ok (.Other _) => ⟨.error .unexpectedResponseType, h, [.Query 0]⟩
      | .ok (.QueryParamsResponse Params) =>
        match maxBlockGasOf Params with
        | none => ⟨.panic, h, [.Query 0]⟩
        | some maxBlockGas =>
          let r := processLoop app maxBlockGas txs (0, [.Query 0])
          match r.1 with
          | some err => ⟨.error err, h, r.2⟩
          | none => ⟨.ok (), h, r.2⟩

/-! ## utils.go: consensus params query and wire translation -/

/-- The `Block` section of the wire-level `cmtproto.ConsensusParams`. -/
structure WireBlockParams where
  MaxBytes : Int
  MaxGas : Int
  deriving DecidableEq, Repr

/-- The `Evidence` section of the wire-level `cmtproto.ConsensusParams`;
`MaxAgeDuration` is a `time.Duration`, an `int64` count of nanoseconds. -/
structure WireEvidenceParams where
  MaxAgeNumBlocks : Int
  MaxAgeDuration : Int
  MaxBytes : Int
  deriving DecidableEq, Repr

/-- The `Validator` section of the wire-level `cmtproto.ConsensusParams`. -/
structure WireValidatorParams where
  PubKeyTypes : List String
  deriving DecidableEq, Repr

/-- The `Version` section of the wire-level `cmtproto.ConsensusParams`. -/
structure WireVersionParams where
  App : Nat
  deriving DecidableEq, Repr

/-- The `Abci` section of the wire-level `cmtproto.ConsensusParams`. -/
structure WireABCIParams where
  VoteExtensionsEnableHeight : Int
  deriving DecidableEq, Repr

/-- The wire-level `cmtproto.ConsensusParams` as `GetConsensusParams` builds
it, with all five sections set (`ConsensusParams` above is the part of this
message that `GetBlockRetentionHeight` reads). -/
structure WireConsensusParams where
  Block : WireBlockParams
  Evidence : WireEvidenceParams
  Validator : WireValidatorParams
  Version : WireVersionParams
  Abci : WireABCIParams
  deriving DecidableEq, Repr

/-- Errors returned by `GetConsensusParams`. -/
inductive ConsensusParamsError where
  /-- The error of `c.app.Query`, returned unchanged. -/
  | query (err : String)
  /-- The error `fmt.Errorf("failed to query consensus params")`. -/
  | failedToQuery
  deriving DecidableEq, Repr

/-- How a call of `GetConsensusParams` ends: the params, an error, or a
run-time panic (a nil pointer dereference). -/
inductive ParamsOutcome where
  | ok (cs : WireConsensusParams)
  | error (e : ConsensusParamsError)
  | panic
  deriving DecidableEq, Repr

/-- `Consensus.GetConsensusParams`. `storeLatestVersion` is what
`c.store.LatestVersion()` returns; its error is overwritten by the next
assignment and never read. The conversion `time.Duration(...Seconds)` keeps the
`int64` value. Every field access through a nil pointer (`r.Params`,
`.Evidence`, `.MaxAgeDuration`, `.Block`, `.Validator`, `.Version`, `.Abci`)
panics. -/
def GetConsensusParams {T : Type} (app : AppManager T)
    (storeLatestVersion : Nat × Option String) : ParamsOutcome :=
  let latestVersion := storeLatestVersion.1
  match app.Query latestVersion with
  | .error err => .error (.query err)
  | .ok (.Other _) => .error .failedToQuery
  | .ok (.QueryParamsResponse Params) =>
    match Params with
    | none => .panic
    | some p =>
      match p.Evidence with
      | none => .panic
      | some ev =>
        match ev.MaxAgeDuration with
        | none => .panic
        | some d =>
          let evidenceMaxDuration : Int := d.Seconds
          match p.Block, p.Validator, p.Version, p.Abci with
          | some b, some v, some ver, some abci =>
            .ok
              { Block := { MaxBytes := b.MaxBytes, MaxGas := b.MaxGas }
                Evidence :=
                  { MaxAgeNumBlocks := ev.MaxAgeNumBlocks
                    MaxAgeDuration := evidenceMaxDuration
                    MaxBytes := 0 }
                Validator := { PubKeyTypes := v.PubKeyTypes }
                Version := { App := ver.App }
                Abci := { VoteExtensionsEnableHeight := abci.VoteExtensionsEnableHeight } }
          | _, _, _, _ => .panic

/-- An `event.Attribute`. -/
structure Attribute where
  Key : String
  Value : String
  deriving DecidableEq, Repr

/-- An `event.Event`. -/
structure Event where
  Type_ : String
  Attributes : List Attribute
  deriving DecidableEq, Repr

/-- An `abci.EventAttribute`. -/
structure ABCIEventAttribute where
  Key : String
  Value : String
  Index : Bool
  deriving DecidableEq, Repr

/-- An `abci.Event`. -/
structure ABCIEvent where
  Type_ : String
  Attributes : List ABCIEventAttribute
  deriving DecidableEq, Repr

/-- `intoABCIEvents`. The map `indexSet` is given by the list of its keys;
`fmt.Sprintf("%s.%s", e.Type, attr.Key)` is the concatenation with a dot. -/
def intoABCIEvents (events : List Event) (indexSet : List String) : List ABCIEvent :=
  let indexAll : Bool := decide (indexSet.length = 0)
  events.map (fun e =>
    { Type_ := e.Type_
      Attributes := e.Attributes.map (fun attr =>
        let index : Bool := decide ((e.Type_ ++ "." ++ attr.Key) ∈ indexSet)
        { Key := attr.Key, Value := attr.Value, Index := index || indexAll }) })

/-- A non-nil error of a transaction result, by what `errorsmod.ABCIInfo`
reads off it: the codespace, the code, and the log in its redacted and in its
debug form. -/
structure ABCIError where
  Codespace : String
  Code : Nat
  Log : String
  DebugLog : String
  deriving DecidableEq, Repr

/-- Modelled from the spec: `errorsmod.ABCIInfo` (`cosmossdk.io/errors` is not
among the sources) derives a `(codespace, code, log)` triple from a structured
error, code 0 meaning success; the debug flag chooses between the full error
detail and the redacted message for the log. -/
def ABCIInfo (err : Option ABCIError) (debug : Bool) : String × Nat × String :=
  match err with
  | none => ("", 0, "")
  | some e => (e.Codespace, e.Code, if debug then e.DebugLog else e.Log)

/-- An `appmanager.TxResult`, as far as the wire translation reads it
(`GasWanted`, `GasUsed` are `uint64`; `Error` is nil for a successful
transaction). -/
structure TxResult where
  Events : List Event
  Error : Option ABCIError
  GasWanted : Nat
  GasUsed : Nat
  deriving DecidableEq, Repr

/-- An `abci.ExecTxResult` (`GasWanted`, `GasUsed` are `int64`). -/
structure ExecTxResult where
  Codespace : String
  Code : Nat
  Log : String
  GasWanted : Int
  GasUsed : Int
  Events : List ABCIEvent
  deriving DecidableEq, Repr

/-- `responseExecTxResultWithEvents`. -/
def responseExecTxResultWithEvents (err : Option ABCIError) (gw gu : Nat)
    (events : List ABCIEvent) (debug : Bool) : ExecTxResult :=
  let info := ABCIInfo err debug
  { Codespace := info.1
    Code := info.2.1
    Log := info.2.2
    GasWanted := toInt64 gw
    GasUsed := toInt64 gu
    Events := events }

/-- `intoABCITxResults`. The result is a slice of pointers: `none` is an entry
left nil, which is what the loop does for a result whose `Error` is not nil. -/
def intoABCITxResults (results : List TxResult) (indexSet : List String) :
    List (Option ExecTxResult) :=
  results.map (fun r =>
    match r.Error with
    | none =>
      some (responseExecTxResultWithEvents r.Error r.GasWanted r.GasUsed
        (intoABCIEvents r.Events indexSet) false)
    | some _ => none)

/-- An `appmodule.ValidatorUpdate`. -/
structure ValidatorUpdate where
  PubKey : List UInt8
  PubKeyType : String
  Power : Int
  deriving DecidableEq, Repr

/-- A `cmtcrypto.PublicKey`, by the variant of its `Sum`. -/
inductive PublicKey where
  | Ed25519 (key : List UInt8)
  | Secp256K1 (key : List UInt8)
  deriving DecidableEq, Repr

/-- An `abci.ValidatorUpdate`. -/
structure ABCIValidatorUpdate where
  PubKey : PublicKey
  Power : Int
  deriving DecidableEq, Repr

/-- `intoABCIValidatorUpdates`: every entry is first set with an ed25519 key
and then overwritten with a secp256k1 key when the update says so. -/
def intoABCIValidatorUpdates (updates : List ValidatorUpdate) : List ABCIValidatorUpdate :=
  updates.map (fun u =>
    let v : ABCIValidatorUpdate := { PubKey := .Ed25519 u.PubKey, Power := u.Power }
    if u.PubKeyType = "secp256k1" then { v with PubKey := .Secp256K1 u.PubKey } else v)

/-- An `appmanager.BlockResponse`. -/
structure BlockResponse where
  BeginBlockEvents : List Event
  EndBlockEvents : List Event
  TxResults : List TxResult
  ValidatorUpdates : List ValidatorUpdate
  deriving DecidableEq, Repr

/-- An `abci.ResponseFinalizeBlock`. -/
structure ResponseFinalizeBlock where
  Events : List ABCIEvent
  TxResults : List (Option ExecTxResult)
  ValidatorUpdates : List ABCIValidatorUpdate
  AppHash : List UInt8
  ConsensusParamUpdates : Option WireConsensusParams
  deriving DecidableEq, Repr

/-- `finalizeBlockResponse`; it never returns an error. -/
def finalizeBlockResponse (blockResponse : BlockResponse) (cp : Option WireConsensusParams)
    (appHash : List UInt8) (indexSet : List String) : Except String ResponseFinalizeBlock :=
  let allEvents := blockResponse.BeginBlockEvents ++ blockResponse.EndBlockEvents
  .ok
    { Events := intoABCIEvents allEvents indexSet
      TxResults := intoABCITxResults blockResponse.TxResults indexSet
      ValidatorUpdates := intoABCIValidatorUpdates blockResponse.ValidatorUpdates
      AppHash := appHash
      ConsensusParamUpdates := cp }

/-! ## utils.go: the calls of `GetBlockRetentionHeight` on the snapshot manager -/

/-- A call `c.snapshotManager.GetSnapshotBlockRetentionHeights()`. -/
inductive SnapshotCall where
  | GetSnapshotBlockRetentionHeights
  deriving DecidableEq, Repr

/-- `Consensus.GetBlockRetentionHeight` once more, statement by statement, now
returning with the value the calls made on the snapshot manager (`none` is the
nil snapshot manager, `some w` one whose `GetSnapshotBlockRetentionHeights()`
returns `w`). -/
def GetBlockRetentionHeightRun (cfg : Config) (snapshotManager : Option Int)
    (cp : ConsensusParams) (commitHeight : Int) : Int × List SnapshotCall :=
  if cfg.MinRetainBlocks = 0 then (0, [])
  else
    let retentionHeight0 : Int := 0
    let retentionHeight1 : Int :=
      match cp.Evidence with
      | some ev =>
        if ev.MaxAgeNumBlocks > 0 then subInt64 commitHeight ev.MaxAgeNumBlocks
        else retentionHeight0
      | none => retentionHeight0
    let afterSnapshot : Int × List SnapshotCall :=
      match snapshotManager with
      | some snapshotRetentionHeights =>
        if snapshotRetentionHeights > 0 then
          (minNonZero retentionHeight1 (subInt64 commitHeight snapshotRetentionHeights),
            [.GetSnapshotBlockRetentionHeights])
        else (retentionHeight1, [.GetSnapshotBlockRetentionHeights])
      | none => (retentionHeight1, [])
    let v : Int := subInt64 commitHeight (toInt64 cfg.MinRetainBlocks)
    let retentionHeight3 : Int := minNonZero afterSnapshot.1 v
    if retentionHeight3 ≤ 0 then (0, afterSnapshot.2) else (retentionHeight3, afterSnapshot.2)

/-! ## x/mint/abci.go -/

/-- Multiplication of two `uint64` values, wrapping around at `2^64`. -/
def mulUint64 (a b : Nat) : Nat := (a * b) % 18446744073709551616

/-- The loop `for i := 0; i < int(halvings); i++ { initialReward /= 2 }` of
`BeginBlocker`, on the number of turns. -/
def halvingLoop : Nat → Nat → Nat
  | 0, initialReward => initialReward
  | n + 1, initialReward => halvingLoop n (initialReward / 2)

/-- The amount of the coin `transferCoin` that `BeginBlocker` of `x/mint`
computes from `params.BlocksPerYear` (a `uint64`) and `ctx.BlockHeight()` (an
`int64`); `none` is the run-time panic of an integer division by zero. The
constant `21e7` is the `uint64` 210000000; `int(halvings)` is the 64-bit signed
reading of `halvings`, and the loop makes no turn when that is not positive.
What follows in the source (balance check, fee collection, event) works with
this amount and is not modelled. -/
def BeginBlocker (BlocksPerYear : Nat) (BlockHeight : Int) : Option Int :=
  let divisor := mulUint64 BlocksPerYear 4
  if divisor = 0 then none
  else
    let halvings := toUint64 BlockHeight / divisor
    let initialReward := 210000000 / divisor
    let reward := halvingLoop (toInt64 halvings).toNat initialReward
    some (toInt64 reward)

/-! ## Specification-side definitions and concrete inputs -/

/-- The combinator of the specification for the retention height: the minimum
of the non-zero values of a list, and 0 when the list has no non-zero value. -/
def minOfNonZero (vals : List Int) : Int :=
  match vals.filter (fun v => decide (v ≠ 0)) with
  | [] => 0
  | x :: xs => xs.foldl min x

/-- The bounds the specification counts for the retention height, on exact
integers: `c - MaxAgeNumBlocks` when evidence params are present with a positive
`MaxAgeNumBlocks`, `c - snapshotWindow` when a snapshot manager reports a
positive window, and `c - MinRetainBlocks`. -/
def countedBounds (cfg : Config) (snapshotManager : Option Int) (cp : ConsensusParams)
    (commitHeight : Int) : List Int :=
  (match cp.Evidence with
    | some ev => if ev.MaxAgeNumBlocks > 0 then [commitHeight - ev.MaxAgeNumBlocks] else []
    | none => []) ++
  (match snapshotManager with
    | some w => if w > 0 then [commitHeight - w] else []
    | none => []) ++
  [commitHeight - (cfg.MinRetainBlocks : Int)]

/-- A configuration that retains `2^64 - 1` blocks. -/
def cfgRetainAll : Config :=
  { MinRetainBlocks := 18446744073709551615, HaltHeight := 0, HaltTime := 0, InitialHeight := 1 }

/-- A configuration that retains 50 blocks. -/
def cfgRetainFifty : Config :=
  { MinRetainBlocks := 50, HaltHeight := 0, HaltTime := 0, InitialHeight := 1 }

/-- A configuration that retains 10 blocks. -/
def cfgRetainTen : Config :=
  { MinRetainBlocks := 10, HaltHeight := 0, HaltTime := 0, InitialHeight := 1 }

/-- A configuration whose halt time is `2^64 - 1` seconds and that has no halt
height. -/
def cfgHaltTimeMax : Config :=
  { MinRetainBlocks := 0, HaltHeight := 0, HaltTime := 18446744073709551615, InitialHeight := 1 }

/-- The cumulative encoded size of a list of transactions. -/
def totalSize {T : Type} [Tx T] (txs : List T) : Nat := (txs.map Tx.EncodedSize).sum

/-- The cumulative declared gas limit of a list of transactions, as an exact
sum. -/
def totalGas {T : Type} [Tx T] (txs : List T) : Nat := (txs.map Tx.GetGasLimit).sum

/-- A selector state is within the budget `maxTxBytes`, `maxBlockGas`: its
totals are those of the accumulated transactions, the bytes are within the byte
budget and, for a non-zero gas budget, the gas is within the gas budget. -/
def TxSelector.Within {T : Type} [Tx T] (maxTxBytes maxBlockGas : Nat) (ts : TxSelector T) :
    Prop :=
  ts.totalTxBytes = totalSize ts.selectedTxs ∧ ts.totalTxGas = totalGas ts.selectedTxs ∧
    ts.totalTxBytes ≤ maxTxBytes ∧ (maxBlockGas ≠ 0 → ts.totalTxGas ≤ maxBlockGas)

/-- The transactions a run passed to `app.ValidateTx`, in the order of the
calls. -/
def visitedTxs {T : Type} (calls : List (Call T)) : List T :=
  calls.filterMap (fun c => match c with
    | .ValidateTx tx => some tx
    | _ => none)

/-- A concrete transaction type for examples: an identifier, the declared gas
limit and the encoded size. -/
structure SimpleTx where
  id : Nat
  gasLimit : Nat
  size : Nat
  deriving DecidableEq, Repr

instance : Tx SimpleTx where
  GetGasLimit := SimpleTx.gasLimit
  EncodedSize := SimpleTx.size

/-- App consensus params with only a `Block` section of the given `MaxGas`. -/
def paramsWithMaxGas (maxGas : Int) : AppConsensusParams :=
  { Block := some { MaxBytes := 0, MaxGas := maxGas }, Evidence := none, Validator := none,
    Version := none, Abci := none }

/-- An App that validates every transaction and reports the given `MaxGas`. -/
def appAcceptAll (maxGas : Int) : AppManager SimpleTx :=
  { ValidateTx := fun _ => .ok ()
    Query := fun _ => .ok (.QueryParamsResponse (some (paramsWithMaxGas maxGas))) }

/-- An App that rejects exactly the transactions with identifier 1 and reports
the given `MaxGas`. -/
def appRejectOne (maxGas : Int) : AppManager SimpleTx :=
  { ValidateTx := fun tx => if tx.id = 1 then .error "invalid tx" else .ok ()
    Query := fun _ => .ok (.QueryParamsResponse (some (paramsWithMaxGas maxGas))) }

/-- A FIFO mempool: its iterator yields the candidate list as given, and
`Remove` reports a transaction that is not in the pool. -/
def fifoMempool : MempoolImpl SimpleTx :=
  { Select := fun txs => txs
    Remove := fun _ => some .ErrTxNotFound }

/-- Two transactions whose declared gas limits add up to exactly `2^64`. -/
def txsGasWrap : List SimpleTx :=
  [⟨0, 50, 1⟩, ⟨2, 18446744073709551566, 1⟩]

/-- A valid transaction declaring gas 200 followed by an invalid one. -/
def txsGasThenInvalid : List SimpleTx :=
  [⟨0, 200, 1⟩, ⟨1, 10, 1⟩]

/-- Three transactions declaring gas 60, 60 and 30, one byte each. -/
def txsGasSkip : List SimpleTx :=
  [⟨0, 60, 1⟩, ⟨2, 60, 1⟩, ⟨3, 30, 1⟩]

/-- A valid, an invalid and a valid transaction. -/
def txsInvalidMiddle : List SimpleTx :=
  [⟨0, 10, 1⟩, ⟨1, 10, 1⟩, ⟨2, 10, 1⟩]

/-- The span of time a `durationpb.Duration` denotes, in nanoseconds. -/
def Duration.nanoseconds (d : Duration) : Int := d.Seconds * 1000000000 + d.Nanos

/-- The selector state after a sequence of `PrepareHandler` calls on one
handler, started with the selector state `ts`; each call comes with the
mempool as it behaves during that call, the App, the candidate list and the
request. -/
def prepareCalls {T : Type} [Tx T] (ts : TxSelector T) :
    List (Mempool T × AppManager T × List T × Request) → TxSelector T
  | [] => ts
  | (mp, app, txs, req) :: rest =>
    prepareCalls (PrepareHandler ⟨mp, ts⟩ app txs req).handler.txSelector rest

/-- A configuration with initial height 0. -/
def cfgInitialZero : Config :=
  { MinRetainBlocks := 0, HaltHeight := 0, HaltTime := 0, InitialHeight := 0 }

/-- App consensus params with every section present: evidence max age of
100000 blocks and 172800 seconds (48 hours). -/
def paramsFull : AppConsensusParams :=
  { Block := some { MaxBytes := 22020096, MaxGas := -1 }
    Evidence := some { MaxAgeNumBlocks := 100000
                       MaxAgeDuration := some { Seconds := 172800, Nanos := 0 } }
    Validator := some { PubKeyTypes := ["ed25519"] }
    Version := some { App := 0 }
    Abci := some { VoteExtensionsEnableHeight := 0 } }

/-- An App that answers every query with `paramsFull`. -/
def appParamsFull : AppManager SimpleTx :=
  { ValidateTx := fun _ => .ok ()
    Query := fun _ => .ok (.QueryParamsResponse (some paramsFull)) }

/-- An App whose query fails. -/
def appQueryFails : AppManager SimpleTx :=
  { ValidateTx := fun _ => .ok ()
    Query := fun _ => .error "query failed" }

/-- Three valid transactions declaring gas 60, `2^64 - 10` and 60. -/
def txsGasWrapLate : List SimpleTx :=
  [⟨0, 60, 1⟩, ⟨2, 18446744073709551606, 1⟩, ⟨3, 60, 1⟩]

/-- Three transactions declaring gas 40 each. -/
def txsGasForty : List SimpleTx :=
  [⟨0, 40, 1⟩, ⟨2, 40, 1⟩, ⟨3, 40, 1⟩]

/-- A mempool whose `Remove` returns `ErrTxNotFound` wrapped in another
error. -/
def mempoolWrappedNotFound : MempoolImpl SimpleTx :=
  { Select := fun txs => txs
    Remove := fun _ => some (.Wrap "remove" .ErrTxNotFound) }

/-- A mempool whose `Remove` fails with an unrelated error. -/
def mempoolRemoveFails : MempoolImpl SimpleTx :=
  { Select := fun txs => txs
    Remove := fun _ => some (.Other "pool closed") }

/-- A failed transaction result: out of gas, gas wanted 10, gas used 10. -/
def txResultFailed : TxResult :=
  { Events := []
    Error := some { Codespace := "sdk", Code := 11, Log := "out of gas", DebugLog := "out of gas" }
    GasWanted := 10
    GasUsed := 10 }

/-- A begin-block event with two attributes and an end-block event with
one. -/
def eventsExample : List Event :=
  [{ Type_ := "transfer", Attributes := [⟨"sender", "alice"⟩, ⟨"amount", "5"⟩] },
   { Type_ := "mint", Attributes := [⟨"amount", "7"⟩] }]

/-- Two validator updates, one with a secp256k1 key and one with no key type. -/
def validatorUpdatesExample : List ValidatorUpdate :=
  [{ PubKey := [1, 2], PubKeyType := "secp256k1", Power := 10 },
   { PubKey := [3], PubKeyType := "", Power := 0 }]

/-- The reward of the specification, on exact natural numbers: the initial
reward `210000000 / (4 * b)` halved `h / (4 * b)` times, rounding down. -/
def rewardSpec (b h : Nat) : Nat := 210000000 / (4 * b) / 2 ^ (h / (4 * b))

/-- App consensus params with every section present except the evidence
section. -/
def paramsNoEvidence : AppConsensusParams :=
  { Block := some { MaxBytes := 22020096, MaxGas := -1 }
    Evidence := none
    Validator := some { PubKeyTypes := ["ed25519"] }
    Version := some { App := 0 }
    Abci := some { VoteExtensionsEnableHeight := 0 } }

/-- An App that answers every query with `paramsNoEvidence`. -/
def appParamsNoEvidence : AppManager SimpleTx :=
  { ValidateTx := fun _ => .ok ()
    Query := fun _ => .ok (.QueryParamsResponse (some paramsNoEvidence)) }

/-- An App that answers every query with a consensus-params response whose
`Params` message is absent. -/
def appParamsAbsent : AppManager SimpleTx :=
  { ValidateTx := fun _ => .ok ()
    Query := fun _ => .ok (.QueryParamsResponse none) }

/-- An App that answers every query with consensus params that have no `Block`
section. -/
def appParamsNoBlock : AppManager SimpleTx :=
  { ValidateTx := fun _ => .ok ()
    Query := fun _ => .ok (.QueryParamsResponse (some
      { Block := none, Evidence := none, Validator := none, Version := none, Abci := none })) }

/-- A configuration with pruning disabled (`MinRetainBlocks = 0`). -/
def cfgNoPruning : Config :=
  { MinRetainBlocks := 0, HaltHeight := 0, HaltTime := 0, InitialHeight := 1 }

/-! # Properties -/

/-! ## Height continuity -/

/-- With a successful latest-state read, `validateFinalizeBlockHeight` accepts
exactly the heights `h ≥ 1` equal to the expected height, computed on exact
integers. -/
theorem validateFinalizeBlockHeight_iff (cfg : Config) (L : Nat) (h : Int)
    (hL : IsUint64 L) (hI : IsUint64 cfg.InitialHeight) (hh : IsInt64 h) :
    validateFinalizeBlockHeight cfg (.ok L) h = .ok () ↔
      1 ≤ h ∧ h = (if L = 0 ∧ cfg.InitialHeight > 1 then (cfg.InitialHeight : Int)
        else (L : Int) + 1) := by
  unfold IsUint64 at hL hI
  unfold IsInt64 at hh
  unfold validateFinalizeBlockHeight
  by_cases h1 : h < 1
  · simp only [h1, if_true]
    constructor
    · intro hc; cases hc
    · intro hc; omega
  · simp only [h1, if_false]
    by_cases hc : L = 0 ∧ cfg.InitialHeight > 1
    · simp only [hc, and_self, if_true, toInt64, wrapInt64]
      split
      · rename_i hne
        constructor
        · intro hx; cases hx
        · intro hx; exfalso; omega
      · rename_i hne
        constructor
        · intro _; omega
        · intro _; rfl
    · simp only [hc, if_false, toInt64, wrapInt64, addUint64]
      split
      · rename_i hne
        constructor
        · intro hx; cases hx
        · intro hx; exfalso; omega
      · rename_i hne
        constructor
        · intro _; omega
        · intro _; rfl

/-- C1: for every store whose latest-state read succeeds with last committed
height `L`, every configured initial height `I` and every request height `h`,
`validateFinalizeBlockHeight` succeeds if and only if `h ≥ 1` and `h` equals the
expected height (`I` when `L = 0` and `I > 1`, else `L + 1`); with `L = 0`,
`I = 5` only `h = 5` is accepted (1 and 6 are rejected with expected 5), and
with `L = 10`, `I = 1` only `h = 11` is accepted. -/
theorem C1_validateFinalizeBlockHeight (cfg : Config) (L : Nat) (h : Int)
    (hL : IsUint64 L) (hI : IsUint64 cfg.InitialHeight) (hh : IsInt64 h) :
    (validateFinalizeBlockHeight cfg (.ok L) h = .ok () ↔
      1 ≤ h ∧ h = (if L = 0 ∧ cfg.InitialHeight > 1 then (cfg.InitialHeight : Int)
        else (L : Int) + 1)) ∧
    (validateFinalizeBlockHeight { cfg with InitialHeight := 5 } (.ok 0) h = .ok () ↔ h = 5) ∧
    validateFinalizeBlockHeight { cfg with InitialHeight := 5 } (.ok 0) 1
      = .error (.heightMismatch 1 5) ∧
    validateFinalizeBlockHeight { cfg with InitialHeight := 5 } (.ok 0) 6
      = .error (.heightMismatch 6 5) ∧
    (validateFinalizeBlockHeight { cfg with InitialHeight := 1 } (.ok 10) h = .ok () ↔
      h = 11) := by
  refine ⟨validateFinalizeBlockHeight_iff cfg L h hL hI hh, ?_, ?_, ?_, ?_⟩
  · rw [validateFinalizeBlockHeight_iff _ 0 h (by unfold IsUint64; omega)
      (by unfold IsUint64; simp) hh]
    constructor
    · rintro ⟨_, hx⟩; simpa using hx
    · intro hx; subst hx; simp
  · simp only [validateFinalizeBlockHeight, toInt64, wrapInt64]
    norm_num
  · simp only [validateFinalizeBlockHeight, toInt64, wrapInt64]
    norm_num
  · rw [validateFinalizeBlockHeight_iff _ 10 h (by unfold IsUint64; omega)
      (by unfold IsUint64; norm_num) hh]
    constructor
    · rintro ⟨_, hx⟩; simpa using hx
    · intro hx; subst hx; simp

/-- C1 at a concrete input: last committed height 41, initial height 1,
request height 42. -/
theorem C1_validateFinalizeBlockHeight_witness :
    (IsUint64 41 ∧ IsUint64 (Config.mk 0 0 0 1).InitialHeight ∧ IsInt64 42) ∧
    validateFinalizeBlockHeight ⟨0, 0, 0, 1⟩ (.ok 41) 42 = .ok () :=
  ⟨by decide,
    ((C1_validateFinalizeBlockHeight ⟨0, 0, 0, 1⟩ 41 42 (by decide) (by decide)
      (by decide)).1).2 (by decide)⟩

/-! ## Retention height -/

/-- On non-zero arguments `minNonZero` is the minimum. -/
theorem minNonZero_of_ne_zero (x y : Int) (hx : x ≠ 0) (hy : y ≠ 0) :
    minNonZero x y = min x y := by
  unfold minNonZero
  simp only [hx, hy, if_false]
  split <;> omega

/-- A wrapping subtraction whose exact result is an `int64` is exact. -/
theorem subInt64_of_inRange (a b : Int) (h : IsInt64 (a - b)) : subInt64 a b = a - b := by
  unfold IsInt64 at h
  unfold subInt64 wrapInt64
  omega

/-- The conversion `int64(u)` is exact below `2^63`. -/
theorem toInt64_of_lt (u : Nat) (h : u < 9223372036854775808) : toInt64 u = (u : Int) := by
  unfold toInt64 wrapInt64
  omega

/-- The specification's combinator on one value. -/
theorem minOfNonZero_one (z : Int) : minOfNonZero [z] = z := by
  by_cases hz : z = 0 <;> simp [minOfNonZero, List.filter, hz]

/-- The specification's combinator on two values is `minNonZero`. -/
theorem minOfNonZero_two (y z : Int) : minOfNonZero [y, z] = minNonZero y z := by
  by_cases hy : y = 0 <;> by_cases hz : z = 0 <;>
    simp [minOfNonZero, minNonZero, List.filter, hy, hz]
  split <;> omega

/-- The specification's combinator on three values is `minNonZero` applied
twice. -/
theorem minOfNonZero_three (x y z : Int) :
    minOfNonZero [x, y, z] = minNonZero (minNonZero x y) z := by
  by_cases hx : x = 0 <;> by_cases hy : y = 0 <;> by_cases hz : z = 0 <;>
    simp [minOfNonZero, minNonZero, List.filter, hx, hy, hz] <;>
    split_ifs <;> omega

/-- On exact integers, with `0 < MinRetainBlocks < 2^63`, `0 ≤ commitHeight` and
`int64` evidence and snapshot values, `GetBlockRetentionHeight` is the clamped
minimum of the non-zero counted bounds. -/
theorem GetBlockRetentionHeight_eq_spec_of_inRange (cfg : Config) (snapshotManager : Option Int)
    (cp : ConsensusParams) (c : Int)
    (hm : 0 < cfg.MinRetainBlocks) (hm63 : cfg.MinRetainBlocks < 9223372036854775808)
    (hc : 0 ≤ c) (hc64 : IsInt64 c)
    (hev : ∀ ev, cp.Evidence = some ev → IsInt64 ev.MaxAgeNumBlocks)
    (hsn : ∀ w, snapshotManager = some w → IsInt64 w) :
    GetBlockRetentionHeight cfg snapshotManager cp c
      = max 0 (minOfNonZero (countedBounds cfg snapshotManager cp c)) := by
  have hm0 : cfg.MinRetainBlocks ≠ 0 := by omega
  have hv : subInt64 c (toInt64 cfg.MinRetainBlocks) = c - (cfg.MinRetainBlocks : Int) := by
    rw [toInt64_of_lt _ hm63]
    apply subInt64_of_inRange
    unfold IsInt64 at hc64 ⊢
    omega
  have hclamp : ∀ r : Int, (if r ≤ 0 then 0 else r) = max 0 r := by
    intro r; split <;> omega
  unfold GetBlockRetentionHeight countedBounds
  rw [if_neg hm0]
  dsimp only
  rw [hv, hclamp]
  congr 1
  rcases hE : cp.Evidence with _ | ev <;> rcases hS : snapshotManager with _ | w <;> dsimp only
  · rw [List.nil_append, List.nil_append, minOfNonZero_one]
    simp [minNonZero]
  · have hw := hsn w hS
    have hsub : 0 < w → subInt64 c w = c - w := by
      intro hpos
      apply subInt64_of_inRange
      unfold IsInt64 at hc64 hw ⊢
      omega
    by_cases hpos : w > 0
    · simp only [hpos, if_true, hsub hpos, List.nil_append, List.singleton_append]
      rw [minOfNonZero_two]
      simp [minNonZero]
    · simp only [hpos, if_false, List.nil_append, List.append_nil]
      rw [minOfNonZero_one]
      simp [minNonZero]
  · have he := hev ev hE
    have hsub : 0 < ev.MaxAgeNumBlocks →
        subInt64 c ev.MaxAgeNumBlocks = c - ev.MaxAgeNumBlocks := by
      intro hpos
      apply subInt64_of_inRange
      unfold IsInt64 at hc64 he ⊢
      omega
    by_cases hpos : ev.MaxAgeNumBlocks > 0
    · simp only [hpos, if_true, hsub hpos, List.append_nil, List.singleton_append]
      rw [minOfNonZero_two]
    · simp only [hpos, if_false, List.nil_append, List.append_nil]
      rw [minOfNonZero_one]
      simp [minNonZero]
  · have he := hev ev hE
    have hw := hsn w hS
    have hsub : 0 < ev.MaxAgeNumBlocks →
        subInt64 c ev.MaxAgeNumBlocks = c - ev.MaxAgeNumBlocks := by
      intro hpos
      apply subInt64_of_inRange
      unfold IsInt64 at hc64 he ⊢
      omega
    have hsub2 : 0 < w → subInt64 c w = c - w := by
      intro hpos
      apply subInt64_of_inRange
      unfold IsInt64 at hc64 hw ⊢
      omega
    by_cases hpos : ev.MaxAgeNumBlocks > 0 <;> by_cases hpos2 : w > 0
    · simp only [hpos, hpos2, if_true, hsub hpos, hsub2 hpos2, List.singleton_append,
        List.cons_append, List.nil_append]
      rw [minOfNonZero_three]
    · simp only [hpos, hpos2, if_true, if_false, hsub hpos, List.append_nil,
        List.singleton_append]
      rw [minOfNonZero_two]
    · simp only [hpos, hpos2, if_true, if_false, hsub2 hpos2, List.nil_append,
        List.singleton_append]
      rw [minOfNonZero_two]
      simp [minNonZero]
    · simp only [hpos, hpos2, if_false, List.nil_append]
      rw [minOfNonZero_one]
      simp [minNonZero]

/-- The examples of the specification: retaining 100 blocks at commit height
50 gives 0, retaining 10 blocks at commit height 50 with no evidence or
snapshot bound gives 40. -/
theorem GetBlockRetentionHeight_examples :
    GetBlockRetentionHeight ⟨100, 0, 0, 1⟩ none ⟨none⟩ 50 = 0 ∧
    GetBlockRetentionHeight ⟨10, 0, 0, 1⟩ none ⟨none⟩ 50 = 40 := by
  constructor <;> decide

/-- C8, the code at `MinRetainBlocks = 2^64 - 1`, `commitHeight = 50`, no
evidence params and no snapshot manager: `int64(MinRetainBlocks)` is `-1`, so
the bound `commitHeight - MinRetainBlocks` is computed as 51 and 51 is
returned, whereas the clamped minimum of the non-zero counted bounds (here the
single bound `50 - (2^64 - 1)`) is 0. -/
theorem C8_GetBlockRetentionHeight_wraps :
    0 < cfgRetainAll.MinRetainBlocks ∧ IsUint64 cfgRetainAll.MinRetainBlocks ∧
    GetBlockRetentionHeight cfgRetainAll none ⟨none⟩ 50 = 51 ∧
    max 0 (minOfNonZero (countedBounds cfgRetainAll none ⟨none⟩ 50)) = 0 := by
  refine ⟨by decide, by decide, by decide, by decide⟩

/-- Folding `min` over a list never exceeds the starting value. -/
theorem foldl_min_le_init (xs : List Int) (x : Int) : xs.foldl min x ≤ x := by
  induction xs generalizing x with
  | nil => simp
  | cons y ys ih =>
    simp only [List.foldl_cons]
    exact le_trans (ih (min x y)) (min_le_left x y)

/-- Folding `min` over a list never exceeds a member of the list. -/
theorem foldl_min_le_of_mem (xs : List Int) (x v : Int) (hv : v ∈ xs) :
    xs.foldl min x ≤ v := by
  induction xs generalizing x with
  | nil => simp at hv
  | cons y ys ih =>
    simp only [List.foldl_cons]
    rcases List.mem_cons.mp hv with h | h
    · subst h
      exact le_trans (foldl_min_le_init ys (min x v)) (min_le_right x v)
    · exact ih (min x y) h

/-- The specification's combinator never exceeds a non-zero member. -/
theorem minOfNonZero_le_of_mem (l : List Int) (v : Int) (hv : v ∈ l) (hne : v ≠ 0) :
    minOfNonZero l ≤ v := by
  have hmem : v ∈ l.filter (fun v => decide (v ≠ 0)) := by
    rw [List.mem_filter]
    exact ⟨hv, by simpa using hne⟩
  unfold minOfNonZero
  rcases hf : l.filter (fun v => decide (v ≠ 0)) with _ | ⟨x, xs⟩
  · rw [hf] at hmem; simp at hmem
  · rw [hf] at hmem
    dsimp only
    rcases List.mem_cons.mp hmem with h | h
    · subst h; exact foldl_min_le_init xs v
    · exact foldl_min_le_of_mem xs x v h

/-- In range (`0 < MinRetainBlocks < 2^63`, `commitHeight c ≥ 0`) the retention
height `h` respects every active bound that is not exactly zero:
`h ≤ max(0, c - m)` when `c ≠ m`; `h ≤ max(0, c - MaxAgeNumBlocks)` when evidence
params set `MaxAgeNumBlocks > 0` and `c ≠ MaxAgeNumBlocks`;
`h ≤ max(0, c - snapshotWindow)` when a snapshot manager reports a window `> 0`
and `c ≠ snapshotWindow`. -/
theorem GetBlockRetentionHeight_le_nonzero_bounds (cfg : Config) (snapshotManager : Option Int)
    (cp : ConsensusParams) (c : Int)
    (hm : 0 < cfg.MinRetainBlocks) (hm63 : cfg.MinRetainBlocks < 9223372036854775808)
    (hc : 0 ≤ c) (hc64 : IsInt64 c)
    (hev : ∀ ev, cp.Evidence = some ev → IsInt64 ev.MaxAgeNumBlocks)
    (hsn : ∀ w, snapshotManager = some w → IsInt64 w) :
    (c ≠ (cfg.MinRetainBlocks : Int) →
      GetBlockRetentionHeight cfg snapshotManager cp c
        ≤ max 0 (c - (cfg.MinRetainBlocks : Int))) ∧
    (∀ ev, cp.Evidence = some ev → ev.MaxAgeNumBlocks > 0 → c ≠ ev.MaxAgeNumBlocks →
      GetBlockRetentionHeight cfg snapshotManager cp c ≤ max 0 (c - ev.MaxAgeNumBlocks)) ∧
    (∀ w, snapshotManager = some w → w > 0 → c ≠ w →
      GetBlockRetentionHeight cfg snapshotManager cp c ≤ max 0 (c - w)) := by
  rw [GetBlockRetentionHeight_eq_spec_of_inRange cfg snapshotManager cp c hm hm63 hc hc64 hev hsn]
  refine ⟨?_, ?_, ?_⟩
  · intro hne
    apply max_le_max le_rfl
    apply minOfNonZero_le_of_mem
    · simp [countedBounds]
    · omega
  · intro ev hE hpos hne
    apply max_le_max le_rfl
    apply minOfNonZero_le_of_mem
    · simp [countedBounds, hE, hpos]
    · omega
  · intro w hS hpos hne
    apply max_le_max le_rfl
    apply minOfNonZero_le_of_mem
    · simp [countedBounds, hS, hpos]
    · omega

/-- C9, the code where a bound is exactly zero. Retaining 50 blocks with
`MaxAgeNumBlocks = 10` and no snapshot manager, the retention height at commit
heights 49, 50, 51 is 0, 40, 1: at commit height 50 the bound `50 - 50 = 0`
(prune nothing) is taken by `minNonZero` for an unset value and dropped, and 40
is returned, above `max(0, c - m) = 0`. Likewise, retaining 10 blocks with
`MaxAgeNumBlocks = 50` at commit height 50, the evidence bound `50 - 50 = 0` is
dropped and 40 is returned, above `max(0, c - MaxAgeNumBlocks) = 0`. -/
theorem C9_GetBlockRetentionHeight_zero_bound_dropped :
    0 < cfgRetainFifty.MinRetainBlocks ∧ (EvidenceParams.mk 10).MaxAgeNumBlocks > 0 ∧
    GetBlockRetentionHeight cfgRetainFifty none ⟨some ⟨10⟩⟩ 49 = 0 ∧
    GetBlockRetentionHeight cfgRetainFifty none ⟨some ⟨10⟩⟩ 50 = 40 ∧
    GetBlockRetentionHeight cfgRetainFifty none ⟨some ⟨10⟩⟩ 51 = 1 ∧
    ¬ (GetBlockRetentionHeight cfgRetainFifty none ⟨some ⟨10⟩⟩ 50
        ≤ max 0 (50 - (cfgRetainFifty.MinRetainBlocks : Int))) ∧
    0 < cfgRetainTen.MinRetainBlocks ∧ (EvidenceParams.mk 50).MaxAgeNumBlocks > 0 ∧
    GetBlockRetentionHeight cfgRetainTen none ⟨some ⟨50⟩⟩ 50 = 40 ∧
    ¬ (GetBlockRetentionHeight cfgRetainTen none ⟨some ⟨50⟩⟩ 50
        ≤ max 0 (50 - (EvidenceParams.mk 50).MaxAgeNumBlocks)) := by
  refine ⟨by decide, by decide, by decide, by decide, by decide, by decide, by decide,
    by decide, by decide, by decide⟩

/-! ## Halt check -/

/-- For a non-negative height and a halt time below `2^63`, `checkHalt` fails
exactly when a non-zero halt height is exceeded by the height or a non-zero
halt time is exceeded by the block time. -/
theorem checkHalt_iff_of_inRange (cfg : Config) (height unixTime : Int)
    (hh : 0 ≤ height) (hh64 : IsInt64 height) (ht : cfg.HaltTime < 9223372036854775808) :
    checkHalt cfg height unixTime = .error (.halt cfg.HaltHeight cfg.HaltTime) ∧
        ((cfg.HaltHeight > 0 ∧ height > (cfg.HaltHeight : Int)) ∨
          (cfg.HaltTime > 0 ∧ unixTime > (cfg.HaltTime : Int))) ∨
    checkHalt cfg height unixTime = .ok () ∧
        ¬ ((cfg.HaltHeight > 0 ∧ height > (cfg.HaltHeight : Int)) ∨
          (cfg.HaltTime > 0 ∧ unixTime > (cfg.HaltTime : Int))) := by
  unfold IsInt64 at hh64
  have h1 : (toUint64 height : Int) = height := by unfold toUint64; omega
  have h2 : toInt64 cfg.HaltTime = (cfg.HaltTime : Int) := toInt64_of_lt _ ht
  unfold checkHalt
  rw [h2]
  have h3 : toUint64 height > cfg.HaltHeight ↔ height > (cfg.HaltHeight : Int) := by
    constructor <;> intro h <;> omega
  simp only [h3]
  by_cases ha : cfg.HaltHeight > 0 ∧ height > (cfg.HaltHeight : Int)
  · left; simp [ha]
  · by_cases hb : cfg.HaltTime > 0 ∧ unixTime > (cfg.HaltTime : Int)
    · left; simp [ha, hb]
    · right; simp [ha, hb]

/-- C10, the code at `HaltHeight = 0`, `HaltTime = 2^64 - 1`, height 1 and
block time 1700000000: `int64(HaltTime)` is `-1`, so the block time counts as
exceeding the halt time and `checkHalt` fails, although neither the halt
height nor the halt time is exceeded. -/
theorem C10_checkHalt_wraps :
    IsUint64 cfgHaltTimeMax.HaltTime ∧
    checkHalt cfgHaltTimeMax 1 1700000000
      = .error (.halt 0 18446744073709551615) ∧
    ¬ ((cfgHaltTimeMax.HaltHeight > 0 ∧ (1 : Int) > (cfgHaltTimeMax.HaltHeight : Int)) ∨
        (cfgHaltTimeMax.HaltTime > 0 ∧
          (1700000000 : Int) > (cfgHaltTimeMax.HaltTime : Int))) := by
  refine ⟨by decide, by rfl, by decide⟩

/-! ## ProcessHandler -/

/-- With a real mempool, a ProcessProposal request and a consensus-params
response whose gas ceiling reads as `G`, the result of `ProcessHandler` is the
result of its loop started at total gas 0. -/
theorem ProcessHandler_impl {T : Type} [Tx T] (ts : TxSelector T) (mp : MempoolImpl T)
    (app : AppManager T) (txs : List T) (Params : Option AppConsensusParams) (G : Nat)
    (hq : app.Query 0 = .ok (.QueryParamsResponse Params)) (hG : maxBlockGasOf Params = some G) :
    (ProcessHandler ⟨.Impl mp, ts⟩ app txs .ProcessProposal).result =
      match (processLoop app G txs (0, [.Query 0])).1 with
      | some err => .error err
      | none => .ok () := by
  unfold ProcessHandler
  simp only [Mempool.isNilOrNoOp, hq, hG]
  generalize processLoop app G txs (0, [Call.Query 0]) = r
  rcases r with ⟨_ | e, c⟩ <;> rfl

/-- When the loop of `ProcessHandler` ends without error, every transaction
passed `ValidateTx`. -/
theorem processLoop_none_valid {T : Type} [Tx T] (app : AppManager T) (G : Nat) (txs : List T)
    (st : Nat × List (Call T)) (h : (processLoop app G txs st).1 = none) :
    ∀ tx ∈ txs, app.ValidateTx tx = .ok () := by
  induction txs generalizing st with
  | nil => intro tx htx; simp at htx
  | cons t rest ih =>
    unfold processLoop at h
    rcases hv : app.ValidateTx t with e | u
    · simp [hv] at h
    · simp only [hv] at h
      have hrest : ∃ st1, (processLoop app G rest st1).1 = none := by
        by_cases hG : G > 0
        · simp only [hG, if_true] at h
          by_cases hgas : addUint64 st.1 (Tx.GetGasLimit t) > G
          · simp [hgas] at h
          · simp only [hgas, if_false] at h
            exact ⟨_, h⟩
        · simp only [hG, if_false] at h
          exact ⟨_, h⟩
      obtain ⟨st1, h1⟩ := hrest
      intro tx htx
      rcases List.mem_cons.mp htx with rfl | hmem
      · exact hv
      · exact ih st1 h1 tx hmem

/-- With gas ceiling 0 the loop of `ProcessHandler` ends without error on a
list of valid transactions. -/
theorem processLoop_zero_of_valid {T : Type} [Tx T] (app : AppManager T) (txs : List T)
    (st : Nat × List (Call T)) (h : ∀ tx ∈ txs, app.ValidateTx tx = .ok ()) :
    (processLoop app 0 txs st).1 = none := by
  induction txs generalizing st with
  | nil => rfl
  | cons t rest ih =>
    unfold processLoop
    have hv := h t (List.mem_cons_self t rest)
    simp only [hv, gt_iff_lt, lt_self_iff_false, if_false]
    exact ih _ (fun tx htx => h tx (List.mem_cons_of_mem t htx))

/-- At the first transaction failing `ValidateTx` the loop of `ProcessHandler`
returns the error wrapping that failure, unless the gas ceiling (then non-zero)
was exceeded before, in which case only transactions before the failing one
were validated. -/
theorem processLoop_first_failure {T : Type} [Tx T] (app : AppManager T) (G : Nat)
    (pre : List T) (tx : T) (post : List T) (err : String) (st : Nat × List (Call T))
    (hpre : ∀ t ∈ pre, app.ValidateTx t = .ok ()) (htx : app.ValidateTx tx = .error err) :
    (processLoop app G (pre ++ tx :: post) st).1 = some (.failedToValidateTx err) ∨
      (0 < G ∧ ∃ total k, G < total ∧
        (processLoop app G (pre ++ tx :: post) st).1 = some (.gasExceeded total G) ∧
        (processLoop app G (pre ++ tx :: post) st).2
          = st.2 ++ (pre.take k).map Call.ValidateTx) := by
  induction pre generalizing st with
  | nil =>
    left
    simp only [List.nil_append]
    unfold processLoop
    simp [htx]
  | cons t rest ih =>
    have hv := hpre t (List.mem_cons_self t rest)
    have hrest : ∀ x ∈ rest, app.ValidateTx x = .ok () :=
      fun x hx => hpre x (List.mem_cons_of_mem t hx)
    have hnext : ∀ st1 : Nat × List (Call T), st1.2 = st.2 ++ [Call.ValidateTx t] →
        processLoop app G (t :: rest ++ tx :: post) st = processLoop app G (rest ++ tx :: post) st1 →
        (processLoop app G (t :: rest ++ tx :: post) st).1 = some (.failedToValidateTx err) ∨
        (0 < G ∧ ∃ total k, G < total ∧
          (processLoop app G (t :: rest ++ tx :: post) st).1 = some (.gasExceeded total G) ∧
          (processLoop app G (t :: rest ++ tx :: post) st).2
            = st.2 ++ ((t :: rest).take k).map Call.ValidateTx) := by
      intro st1 hst1 heq
      rw [heq]
      rcases ih st1 hrest with h | ⟨hpos, total, k, hlt, h1, h2⟩
      · exact Or.inl h
      · refine Or.inr ⟨hpos, total, k + 1, hlt, h1, ?_⟩
        rw [h2, hst1]
        simp
    simp only [List.cons_append] at hnext ⊢
    by_cases hG : G > 0
    · by_cases hgas : addUint64 st.1 (Tx.GetGasLimit t) > G
      · right
        refine ⟨hG, addUint64 st.1 (Tx.GetGasLimit t), 1, hgas, ?_, ?_⟩
        · unfold processLoop
          simp only [hv, hG, hgas, if_true]
        · unfold processLoop
          simp only [hv, hG, hgas, if_true]
          simp
      · apply hnext (addUint64 st.1 (Tx.GetGasLimit t), st.2 ++ [Call.ValidateTx t]) rfl
        conv_lhs => unfold processLoop
        simp only [hv, hG, hgas, if_true, if_false]
    · apply hnext (st.1, st.2 ++ [Call.ValidateTx t]) rfl
      conv_lhs => unfold processLoop
      simp only [hv, hG, if_false]

/-- The calls of `ProcessHandler`, in the situation of `ProcessHandler_impl`,
are those of its loop. -/
theorem ProcessHandler_impl_calls {T : Type} [Tx T] (ts : TxSelector T) (mp : MempoolImpl T)
    (app : AppManager T) (txs : List T) (Params : Option AppConsensusParams) (G : Nat)
    (hq : app.Query 0 = .ok (.QueryParamsResponse Params)) (hG : maxBlockGasOf Params = some G) :
    (ProcessHandler ⟨.Impl mp, ts⟩ app txs .ProcessProposal).calls =
      (processLoop app G txs (0, [.Query 0])).2 := by
  unfold ProcessHandler
  simp only [Mempool.isNilOrNoOp, hq, hG]
  generalize processLoop app G txs (0, [Call.Query 0]) = r
  rcases r with ⟨_ | e, c⟩ <;> rfl

/-- As long as the running `uint64` total cannot wrap around, a loop of
`ProcessHandler` that ends without error under a non-zero gas ceiling has kept
the exact cumulative gas within the ceiling. -/
theorem processLoop_none_gas_le {T : Type} [Tx T] (app : AppManager T) (G : Nat) (txs : List T)
    (st : Nat × List (Call T)) (hG : 0 < G)
    (hno : st.1 + totalGas txs < 18446744073709551616) (hst : st.1 ≤ G)
    (h : (processLoop app G txs st).1 = none) : st.1 + totalGas txs ≤ G := by
  induction txs generalizing st with
  | nil => simpa [totalGas] using hst
  | cons t rest ih =>
    have hgs : totalGas (t :: rest) = Tx.GetGasLimit t + totalGas rest := by simp [totalGas]
    rw [hgs] at hno ⊢
    unfold processLoop at h
    rcases hv : app.ValidateTx t with e | u
    · simp [hv] at h
    · simp only [hv, hG, if_true] at h
      have hadd : addUint64 st.1 (Tx.GetGasLimit t) = st.1 + Tx.GetGasLimit t := by
        unfold addUint64; omega
      rw [hadd] at h
      by_cases hgas : st.1 + Tx.GetGasLimit t > G
      · simp [hgas] at h
      · simp only [hgas, if_false] at h
        have := ih (st.1 + Tx.GetGasLimit t, st.2 ++ [Call.ValidateTx t])
          (by dsimp only; omega) (by dsimp only; omega) h
        dsimp only at this
        omega

/-- Where the exact sum of the declared gas limits is below `2^64`, a list
accepted by `ProcessHandler` under a non-zero gas ceiling `G` has cumulative
declared gas at most `G`. -/
theorem ProcessHandler_accept_gas_le_of_noOverflow {T : Type} [Tx T] (ts : TxSelector T)
    (mp : MempoolImpl T) (app : AppManager T) (txs : List T)
    (Params : Option AppConsensusParams) (G : Nat)
    (hq : app.Query 0 = .ok (.QueryParamsResponse Params)) (hG : maxBlockGasOf Params = some G)
    (hG0 : G ≠ 0) (hno : totalGas txs < 18446744073709551616)
    (hacc : (ProcessHandler ⟨.Impl mp, ts⟩ app txs .ProcessProposal).result = .ok ()) :
    totalGas txs ≤ G := by
  rw [ProcessHandler_impl ts mp app txs Params G hq hG] at hacc
  have hnone : (processLoop app G txs (0, [Call.Query 0])).1 = none := by
    rcases hl : (processLoop app G txs (0, [Call.Query 0])).1 with _ | e
    · rfl
    · rw [hl] at hacc; cases hacc
  have := processLoop_none_gas_le app G txs (0, [Call.Query 0]) (by omega)
    (by dsimp only; omega) (by dsimp only; omega) hnone
  dsimp only at this
  omega

/-- C6: with a nil or no-op mempool, `ProcessHandler` returns success for
every transaction list, every request (also one of the wrong type) and every
App, and makes no call at all (neither `Query` nor `ValidateTx`). -/
theorem C6_ProcessHandler_noOp_accepts {T : Type} [Tx T] (ts : TxSelector T)
    (app : AppManager T) (txs : List T) (req : Request) :
    (ProcessHandler ⟨.Nil, ts⟩ app txs req).result = .ok () ∧
    (ProcessHandler ⟨.Nil, ts⟩ app txs req).calls = [] ∧
    (ProcessHandler ⟨.NoOp, ts⟩ app txs req).result = .ok () ∧
    (ProcessHandler ⟨.NoOp, ts⟩ app txs req).calls = [] := by
  simp [ProcessHandler, Mempool.isNilOrNoOp]

/-- C2, the code at gas ceiling 100 and two valid transactions declaring gas
50 and `2^64 - 50`: the running `uint64` total wraps around to 0 at the second
transaction, so `ProcessHandler` accepts, although the exact sum of the declared
gas limits is `2^64`, above the ceiling. -/
theorem C2_ProcessHandler_gas_wraps :
    (∀ tx ∈ txsGasWrap, IsUint64 (Tx.GetGasLimit tx)) ∧
    maxBlockGasOf (some (paramsWithMaxGas 100)) = some 100 ∧
    (ProcessHandler (NewDefaultProposalHandler (.Impl fifoMempool)) (appAcceptAll 100)
      txsGasWrap .ProcessProposal).result = .ok () ∧
    (txsGasWrap.map Tx.GetGasLimit).sum = 18446744073709551616 := by
  refine ⟨by decide, by decide, by decide, by decide⟩

/-- C5 as stated fails: with gas ceiling 100, a valid transaction declaring
gas 200 followed by an invalid transaction is rejected with the gas error raised
at the first transaction, not with an error wrapping the validation failure of
the second, which is never validated. -/
theorem C5_counterexample :
    (appRejectOne 100).ValidateTx ⟨1, 10, 1⟩ = .error "invalid tx" ∧
    (ProcessHandler (NewDefaultProposalHandler (.Impl fifoMempool)) (appRejectOne 100)
      txsGasThenInvalid .ProcessProposal).result = .error (.gasExceeded 200 100) ∧
    (ProcessHandler (NewDefaultProposalHandler (.Impl fifoMempool)) (appRejectOne 100)
      txsGasThenInvalid .ProcessProposal).result ≠ .error (.failedToValidateTx "invalid tx") ∧
    (ProcessHandler (NewDefaultProposalHandler (.Impl fifoMempool)) (appRejectOne 100)
      txsGasThenInvalid .ProcessProposal).calls = [.Query 0, .ValidateTx ⟨0, 200, 1⟩] := by
  refine ⟨by rfl, by decide, by decide, by decide⟩

/-- C5, amended: with a real mempool, a ProcessProposal request and a
successful consensus-params query with gas ceiling `G`: if `ProcessHandler`
accepts then every transaction passed `ValidateTx`; a failing transaction
rejects the whole proposal, with the error wrapping the first validation
failure or, when `G` is non-zero, a gas error raised before that transaction is
validated; and when `G = 0` the handler accepts if and only if every
transaction passes `ValidateTx`, and otherwise returns the error wrapping the
first validation failure. -/
theorem C5_ProcessHandler_validation {T : Type} [Tx T] (ts : TxSelector T)
    (mp : MempoolImpl T) (app : AppManager T) (txs : List T)
    (Params : Option AppConsensusParams) (G : Nat)
    (hq : app.Query 0 = .ok (.QueryParamsResponse Params))
    (hG : maxBlockGasOf Params = some G) :
    ((ProcessHandler ⟨.Impl mp, ts⟩ app txs .ProcessProposal).result = .ok () →
      ∀ tx ∈ txs, app.ValidateTx tx = .ok ()) ∧
    (∀ pre tx post err, txs = pre ++ tx :: post →
      (∀ t ∈ pre, app.ValidateTx t = .ok ()) → app.ValidateTx tx = .error err →
      (ProcessHandler ⟨.Impl mp, ts⟩ app txs .ProcessProposal).result
          = .error (.failedToValidateTx err) ∨
        (0 < G ∧ (∃ total, G < total ∧
          (ProcessHandler ⟨.Impl mp, ts⟩ app txs .ProcessProposal).result
            = .error (.gasExceeded total G)) ∧
          Call.ValidateTx tx ∉
            (ProcessHandler ⟨.Impl mp, ts⟩ app txs .ProcessProposal).calls)) ∧
    (G = 0 →
      ((ProcessHandler ⟨.Impl mp, ts⟩ app txs .ProcessProposal).result = .ok () ↔
        ∀ tx ∈ txs, app.ValidateTx tx = .ok ()) ∧
      (∀ pre tx post err, txs = pre ++ tx :: post →
        (∀ t ∈ pre, app.ValidateTx t = .ok ()) → app.ValidateTx tx = .error err →
        (ProcessHandler ⟨.Impl mp, ts⟩ app txs .ProcessProposal).result
          = .error (.failedToValidateTx err))) := by
  rw [ProcessHandler_impl ts mp app txs Params G hq hG,
    ProcessHandler_impl_calls ts mp app txs Params G hq hG]
  have hacc : (match (processLoop app G txs (0, [Call.Query 0])).1 with
      | some err => Outcome.error err
      | none => Outcome.ok ()) = Outcome.ok () →
      ∀ tx ∈ txs, app.ValidateTx tx = .ok () := by
    intro hok
    apply processLoop_none_valid app G txs (0, [.Query 0])
    rcases hl : (processLoop app G txs (0, [Call.Query 0])).1 with _ | e
    · rfl
    · rw [hl] at hok; cases hok
  have hfail : ∀ pre tx post err, txs = pre ++ tx :: post →
      (∀ t ∈ pre, app.ValidateTx t = .ok ()) → app.ValidateTx tx = .error err →
      (match (processLoop app G txs (0, [Call.Query 0])).1 with
        | some err => Outcome.error err
        | none => Outcome.ok ()) = .error (.failedToValidateTx err) ∨
      (0 < G ∧ (∃ total, G < total ∧
        (match (processLoop app G txs (0, [Call.Query 0])).1 with
          | some err => Outcome.error err
          | none => Outcome.ok ()) = .error (.gasExceeded total G)) ∧
        Call.ValidateTx tx ∉ (processLoop app G txs (0, [Call.Query 0])).2) := by
    intro pre tx post err hsplit hpre htx
    subst hsplit
    rcases processLoop_first_failure app G pre tx post err (0, [.Query 0]) hpre htx with
      h | ⟨hpos, total, k, hlt, h1, h2⟩
    · left; rw [h]
    · right
      refine ⟨hpos, ⟨total, hlt, by rw [h1]⟩, ?_⟩
      rw [h2]
      intro hmem
      rcases List.mem_append.mp hmem with hm | hm
      · simp at hm
      · obtain ⟨x, hx, hxe⟩ := List.mem_map.mp hm
        injection hxe with hxe
        subst hxe
        have := hpre x (List.mem_of_mem_take hx)
        rw [htx] at this
        cases this
  refine ⟨hacc, hfail, ?_⟩
  intro hG0
  refine ⟨⟨hacc, ?_⟩, ?_⟩
  · intro hall
    subst hG0
    rw [processLoop_zero_of_valid app txs _ hall]
  · intro pre tx post err hsplit hpre htx
    rcases hfail pre tx post err hsplit hpre htx with h | ⟨hpos, _⟩
    · exact h
    · omega

/-- C5 (amended) at a concrete input: with gas ceiling 0, a valid transaction
followed by an invalid one is rejected with the error wrapping the validation
failure. -/
theorem C5_ProcessHandler_validation_witness :
    (appRejectOne 0).Query 0 = .ok (.QueryParamsResponse (some (paramsWithMaxGas 0))) ∧
    maxBlockGasOf (some (paramsWithMaxGas 0)) = some 0 ∧
    (ProcessHandler ⟨.Impl fifoMempool, NewDefaultTxSelector⟩ (appRejectOne 0)
      txsGasThenInvalid .ProcessProposal).result = .error (.failedToValidateTx "invalid tx") :=
  ⟨rfl, rfl,
    ((C5_ProcessHandler_validation NewDefaultTxSelector fifoMempool (appRejectOne 0)
      txsGasThenInvalid (some (paramsWithMaxGas 0)) 0 rfl rfl).2.2 rfl).2
      [⟨0, 200, 1⟩] ⟨1, 10, 1⟩ [] "invalid tx" rfl
      (by intro t ht; rw [List.mem_singleton] at ht; subst ht; rfl) rfl⟩

/-! ## TxSelector -/

/-- The cumulative size of a list extended by one transaction. -/
theorem totalSize_append_singleton {T : Type} [Tx T] (l : List T) (tx : T) :
    totalSize (l ++ [tx]) = totalSize l + Tx.EncodedSize tx := by
  simp [totalSize]

/-- The cumulative gas of a list extended by one transaction. -/
theorem totalGas_append_singleton {T : Type} [Tx T] (l : List T) (tx : T) :
    totalGas (l ++ [tx]) = totalGas l + Tx.GetGasLimit tx := by
  simp [totalGas]

/-- The new selector is within every budget. -/
theorem NewDefaultTxSelector_within {T : Type} [Tx T] (B G : Nat) :
    (NewDefaultTxSelector : TxSelector T).Within B G := by
  simp [TxSelector.Within, NewDefaultTxSelector, totalSize, totalGas]

/-- What `SelectTxForProposal` does: either the transaction fits and is
accumulated, or it does not fit and the state is unchanged; `stop` reports
whether the accumulated bytes have reached the byte budget. -/
theorem SelectTxForProposal_cases {T : Type} [Tx T] (ts : TxSelector T) (B G : Nat) (tx : T) :
    ((ts.totalTxBytes + Tx.EncodedSize tx ≤ B ∧
        (G = 0 ∨ ts.totalTxGas + Tx.GetGasLimit tx ≤ G)) ∧
      (ts.SelectTxForProposal B G tx).2 =
        { selectedTxs := ts.selectedTxs ++ [tx]
          totalTxBytes := ts.totalTxBytes + Tx.EncodedSize tx
          totalTxGas := ts.totalTxGas + Tx.GetGasLimit tx } ∧
      (ts.SelectTxForProposal B G tx).1 = decide (ts.totalTxBytes + Tx.EncodedSize tx ≥ B)) ∨
    (¬ (ts.totalTxBytes + Tx.EncodedSize tx ≤ B ∧
        (G = 0 ∨ ts.totalTxGas + Tx.GetGasLimit tx ≤ G)) ∧
      (ts.SelectTxForProposal B G tx).2 = ts ∧
      (ts.SelectTxForProposal B G tx).1 = decide (ts.totalTxBytes ≥ B)) := by
  unfold TxSelector.SelectTxForProposal
  by_cases hfit : ts.totalTxBytes + Tx.EncodedSize tx ≤ B ∧
      (G = 0 ∨ ts.totalTxGas + Tx.GetGasLimit tx ≤ G)
  · left
    refine ⟨hfit, ?_, ?_⟩ <;> simp only [hfit, and_self, if_true]
  · right
    refine ⟨hfit, ?_, ?_⟩ <;> simp only [hfit, if_false]

/-- `SelectTxForProposal` keeps the selector within the budget. -/
theorem SelectTxForProposal_within {T : Type} [Tx T] (ts : TxSelector T) (B G : Nat) (tx : T)
    (h : ts.Within B G) : (ts.SelectTxForProposal B G tx).2.Within B G := by
  rcases SelectTxForProposal_cases ts B G tx with ⟨⟨hb, hg⟩, h2, _⟩ | ⟨_, h2, _⟩
  · rw [h2]
    obtain ⟨e1, e2, _, _⟩ := h
    refine ⟨?_, ?_, hb, ?_⟩
    · simp only [totalSize_append_singleton, e1]
    · simp only [totalGas_append_singleton, e2]
    · intro hG
      rcases hg with h0 | hle
      · exact absurd h0 hG
      · exact hle
  · rw [h2]; exact h

/-- `SelectTxForProposal` leaves the accumulated sequence as it is or appends
the transaction. -/
theorem SelectTxForProposal_selected {T : Type} [Tx T] (ts : TxSelector T) (B G : Nat) (tx : T) :
    (ts.SelectTxForProposal B G tx).2.selectedTxs = ts.selectedTxs ∨
    (ts.SelectTxForProposal B G tx).2.selectedTxs = ts.selectedTxs ++ [tx] := by
  rcases SelectTxForProposal_cases ts B G tx with ⟨_, h2, _⟩ | ⟨_, h2, _⟩
  · right; rw [h2]
  · left; rw [h2]

/-! ## PrepareHandler without a mempool -/

/-- With a nil or no-op mempool, a PrepareProposal request and a
consensus-params response whose gas ceiling reads as `G`, `PrepareHandler`
returns what the selector has accumulated at the end of the FIFO loop. -/
theorem PrepareHandler_noOp {T : Type} [Tx T] (mp : Mempool T) (hmp : mp.isNilOrNoOp = true)
    (ts : TxSelector T) (app : AppManager T) (txs : List T) (MaxTxBytes : Int)
    (Params : Option AppConsensusParams) (G : Nat)
    (hq : app.Query 0 = .ok (.QueryParamsResponse Params)) (hG : maxBlockGasOf Params = some G) :
    (PrepareHandler ⟨mp, ts⟩ app txs (.PrepareProposal MaxTxBytes)).result =
      .ok (prepareNoOpLoop (toUint64 MaxTxBytes) G txs (ts, [.Query 0])).1.selectedTxs := by
  unfold PrepareHandler
  simp only [hq, hG]
  cases mp with
  | Nil => rfl
  | NoOp => rfl
  | Impl m => simp [Mempool.isNilOrNoOp] at hmp

/-- The FIFO loop keeps the selector within the budget. -/
theorem prepareNoOpLoop_within {T : Type} [Tx T] (B G : Nat) (txs : List T)
    (st : TxSelector T × List (Call T)) (h : st.1.Within B G) :
    (prepareNoOpLoop B G txs st).1.Within B G := by
  induction txs generalizing st with
  | nil => exact h
  | cons t rest ih =>
    unfold prepareNoOpLoop
    have h1 := SelectTxForProposal_within st.1 B G t h
    dsimp only
    split
    · exact h1
    · exact ih _ h1

/-- The FIFO loop appends to the accumulated sequence a subsequence of the
candidate list, in its order. -/
theorem prepareNoOpLoop_sublist {T : Type} [Tx T] (B G : Nat) (txs : List T)
    (st : TxSelector T × List (Call T)) :
    ∃ sel, (prepareNoOpLoop B G txs st).1.selectedTxs = st.1.selectedTxs ++ sel ∧
      sel.Sublist txs := by
  induction txs generalizing st with
  | nil => exact ⟨[], by simp [prepareNoOpLoop], List.Sublist.slnil⟩
  | cons t rest ih =>
    unfold prepareNoOpLoop
    dsimp only
    rcases SelectTxForProposal_selected st.1 B G t with hs | hs
    · split
      · exact ⟨[], by simp [hs], List.nil_sublist _⟩
      · obtain ⟨sel, he, hsub⟩ := ih (_, st.2 ++ [Call.SelectTxForProposal B G t])
        refine ⟨sel, ?_, hsub.cons t⟩
        rw [he]; dsimp only; rw [hs]
    · split
      · exact ⟨[t], hs, (List.singleton_sublist.mpr (List.mem_cons_self t rest))⟩
      · obtain ⟨sel, he, hsub⟩ := ih (_, st.2 ++ [Call.SelectTxForProposal B G t])
        refine ⟨t :: sel, ?_, hsub.cons₂ t⟩
        rw [he]; dsimp only; rw [hs]; simp

/-- The FIFO loop agrees with every prefix of the candidate list that fits
the remaining budget: the accumulated sequence extends that prefix, or is cut
inside it where the byte budget was exhausted. -/
theorem prepareNoOpLoop_prefix {T : Type} [Tx T] (B G : Nat) (txs : List T)
    (st : TxSelector T × List (Call T)) (p : List T) (hp : p <+: txs)
    (hb : st.1.totalTxBytes + totalSize p ≤ B)
    (hg : G = 0 ∨ st.1.totalTxGas + totalGas p ≤ G) :
    st.1.selectedTxs ++ p <+: (prepareNoOpLoop B G txs st).1.selectedTxs ∨
    ((prepareNoOpLoop B G txs st).1.selectedTxs <+: st.1.selectedTxs ++ p ∧
      B ≤ (prepareNoOpLoop B G txs st).1.totalTxBytes) := by
  induction txs generalizing st p with
  | nil =>
    have : p = [] := List.prefix_nil.mp hp
    subst this
    left
    simp [prepareNoOpLoop]
  | cons t rest ih =>
    cases p with
    | nil =>
      left
      obtain ⟨sel, he, _⟩ := prepareNoOpLoop_sublist B G (t :: rest) st
      rw [he, List.append_nil]
      exact List.prefix_append _ _
    | cons q p1 =>
      obtain ⟨hq, hp1⟩ := List.cons_prefix_cons.mp hp
      subst hq
      have hsz : totalSize (q :: p1) = Tx.EncodedSize q + totalSize p1 := by simp [totalSize]
      have hgs : totalGas (q :: p1) = Tx.GetGasLimit q + totalGas p1 := by simp [totalGas]
      rw [hsz] at hb
      rw [hgs] at hg
      have hfit : st.1.totalTxBytes + Tx.EncodedSize q ≤ B ∧
          (G = 0 ∨ st.1.totalTxGas + Tx.GetGasLimit q ≤ G) := by
        refine ⟨by omega, ?_⟩
        rcases hg with h0 | hle
        · exact Or.inl h0
        · exact Or.inr (by omega)
      rcases SelectTxForProposal_cases st.1 B G q with ⟨_, h2, h1⟩ | ⟨hno, _, _⟩
      · unfold prepareNoOpLoop
        dsimp only
        split
        · rename_i hstop
          right
          rw [h2]
          dsimp only
          refine ⟨(List.prefix_append_right_inj _).mpr (List.prefix_append [q] p1), ?_⟩
          rw [h1] at hstop
          exact of_decide_eq_true hstop
        · have := ih (((st.1.SelectTxForProposal B G q).2,
              st.2 ++ [Call.SelectTxForProposal B G q])) p1 hp1
            (by dsimp only; rw [h2]; dsimp only; omega)
            (by
              dsimp only; rw [h2]; dsimp only
              rcases hg with h0 | hle
              · exact Or.inl h0
              · exact Or.inr (by omega))
          dsimp only at this
          rw [h2] at this
          dsimp only at this
          rw [List.append_assoc, List.singleton_append] at this
          rw [h2]
          exact this
      · exact absurd hfit hno

/-- C7 as stated fails: with the no-op mempool, gas ceiling 100 and three
one-byte transactions declaring gas 60, 60 and 30, the second transaction is
skipped and the third is included, so the returned list is not a prefix of the
input. -/
theorem C7_counterexample :
    (PrepareHandler (NewDefaultProposalHandler .NoOp) (appAcceptAll 100) txsGasSkip
      (.PrepareProposal 1000)).result = .ok [⟨0, 60, 1⟩, ⟨3, 30, 1⟩] ∧
    ¬ ([(⟨0, 60, 1⟩ : SimpleTx), ⟨3, 30, 1⟩] <+: txsGasSkip) := by
  refine ⟨by decide, by decide⟩

/-- The FIFO loop over a single transaction is one call of the selector,
whether or not it signals stop. -/
theorem prepareNoOpLoop_singleton {T : Type} [Tx T] (B G : Nat) (t : T)
    (st : TxSelector T × List (Call T)) :
    prepareNoOpLoop B G [t] st =
      ((st.1.SelectTxForProposal B G t).2, st.2 ++ [Call.SelectTxForProposal B G t]) := by
  unfold prepareNoOpLoop
  dsimp only
  split
  · rfl
  · unfold prepareNoOpLoop
    rfl

/-- The FIFO loop over a list continued by further transactions: when the
loop over the first part has stopped (that part is not empty and the bytes have
reached the budget) the rest is not visited; otherwise the loop goes on over the
rest from the state reached. -/
theorem prepareNoOpLoop_append {T : Type} [Tx T] (B G : Nat) (pre rest : List T)
    (st : TxSelector T × List (Call T)) :
    (pre ≠ [] → B ≤ (prepareNoOpLoop B G pre st).1.totalTxBytes →
      prepareNoOpLoop B G (pre ++ rest) st = prepareNoOpLoop B G pre st) ∧
    ((pre = [] ∨ (prepareNoOpLoop B G pre st).1.totalTxBytes < B) →
      prepareNoOpLoop B G (pre ++ rest) st
        = prepareNoOpLoop B G rest (prepareNoOpLoop B G pre st)) := by
  induction pre generalizing st with
  | nil =>
    refine ⟨fun h => absurd rfl h, fun _ => ?_⟩
    simp [prepareNoOpLoop]
  | cons q p ih =>
    have hstopval : (st.1.SelectTxForProposal B G q).1
        = decide ((st.1.SelectTxForProposal B G q).2.totalTxBytes ≥ B) := by
      unfold TxSelector.SelectTxForProposal
      rfl
    rcases hstop : (st.1.SelectTxForProposal B G q).1 with _ | _
    · -- the selector does not signal stop after `q`
      have hlt : (st.1.SelectTxForProposal B G q).2.totalTxBytes < B := by
        rw [hstop] at hstopval
        have := of_decide_eq_false hstopval.symm
        omega
      have h1 : prepareNoOpLoop B G (q :: p) st =
          prepareNoOpLoop B G p ((st.1.SelectTxForProposal B G q).2,
            st.2 ++ [Call.SelectTxForProposal B G q]) := by
        conv_lhs => unfold prepareNoOpLoop
        simp only [hstop, Bool.false_eq_true, if_false]
      have h2 : prepareNoOpLoop B G (q :: p ++ rest) st =
          prepareNoOpLoop B G (p ++ rest) ((st.1.SelectTxForProposal B G q).2,
            st.2 ++ [Call.SelectTxForProposal B G q]) := by
        simp only [List.cons_append]
        conv_lhs => unfold prepareNoOpLoop
        simp only [hstop, Bool.false_eq_true, if_false]
      rw [h1, h2]
      obtain ⟨ih1, ih2⟩ := ih ((st.1.SelectTxForProposal B G q).2,
        st.2 ++ [Call.SelectTxForProposal B G q])
      refine ⟨?_, ?_⟩
      · intro _ hge
        by_cases hp : p = []
        · subst hp
          simp only [prepareNoOpLoop] at hge
          omega
        · exact ih1 hp hge
      · intro hor
        rcases hor with h0 | hlt2
        · cases h0
        · exact ih2 (Or.inr hlt2)
    · -- the selector signals stop after `q`
      have hge : B ≤ (st.1.SelectTxForProposal B G q).2.totalTxBytes := by
        rw [hstop] at hstopval
        exact of_decide_eq_true hstopval.symm
      have h1 : prepareNoOpLoop B G (q :: p) st =
          ((st.1.SelectTxForProposal B G q).2, st.2 ++ [Call.SelectTxForProposal B G q]) := by
        conv_lhs => unfold prepareNoOpLoop
        simp only [hstop, if_true]
      have h2 : prepareNoOpLoop B G (q :: p ++ rest) st =
          ((st.1.SelectTxForProposal B G q).2, st.2 ++ [Call.SelectTxForProposal B G q]) := by
        simp only [List.cons_append]
        conv_lhs => unfold prepareNoOpLoop
        simp only [hstop, if_true]
      rw [h1, h2]
      refine ⟨fun _ _ => rfl, ?_⟩
      intro hor
      rcases hor with h0 | hlt
      · cases h0
      · dsimp only at hlt
        omega

/-- C7, amended: with a nil or no-op mempool, `PrepareHandler` returns an
order-preserving subsequence of the input list that agrees with every prefix
of the input fitting the budget, and that is determined transaction by
transaction: with `outPre` the result for the input `pre`, the result for `pre`
followed by `t` is `outPre` when `pre` is not empty and `outPre` has reached
the byte budget (the loop has stopped); otherwise it is `outPre` followed by `t`
when `t` fits what is left of the byte budget and of a non-zero gas ceiling, and
`outPre` when it does not. So a transaction that does not fit is skipped and a
later one that fits is still included. -/
theorem C7_PrepareHandler_noOp_fifo {T : Type} [Tx T] (mp : Mempool T)
    (hmp : mp.isNilOrNoOp = true) (app : AppManager T) (txs : List T) (MaxTxBytes : Int)
    (Params : Option AppConsensusParams) (G : Nat)
    (hq : app.Query 0 = .ok (.QueryParamsResponse Params)) (hG : maxBlockGasOf Params = some G) :
    (∃ out, (PrepareHandler (NewDefaultProposalHandler mp) app txs
        (.PrepareProposal MaxTxBytes)).result = .ok out ∧
      out.Sublist txs ∧
      ∀ p, p <+: txs → totalSize p ≤ toUint64 MaxTxBytes → (G = 0 ∨ totalGas p ≤ G) →
        (p <+: out ∨ (out <+: p ∧ toUint64 MaxTxBytes ≤ totalSize out))) ∧
    (PrepareHandler (NewDefaultProposalHandler mp) app []
      (.PrepareProposal MaxTxBytes)).result = .ok [] ∧
    (∀ (pre : List T) (t : T), ∃ outPre out,
      (PrepareHandler (NewDefaultProposalHandler mp) app pre
        (.PrepareProposal MaxTxBytes)).result = .ok outPre ∧
      (PrepareHandler (NewDefaultProposalHandler mp) app (pre ++ [t])
        (.PrepareProposal MaxTxBytes)).result = .ok out ∧
      (pre ≠ [] → toUint64 MaxTxBytes ≤ totalSize outPre → out = outPre) ∧
      ((pre = [] ∨ totalSize outPre < toUint64 MaxTxBytes) →
        (totalSize outPre + Tx.EncodedSize t ≤ toUint64 MaxTxBytes ∧
          (G = 0 ∨ totalGas outPre + Tx.GetGasLimit t ≤ G)) →
        out = outPre ++ [t]) ∧
      ((pre = [] ∨ totalSize outPre < toUint64 MaxTxBytes) →
        ¬ (totalSize outPre + Tx.EncodedSize t ≤ toUint64 MaxTxBytes ∧
          (G = 0 ∨ totalGas outPre + Tx.GetGasLimit t ≤ G)) →
        out = outPre)) := by
  refine ⟨⟨_, PrepareHandler_noOp mp hmp _ app txs MaxTxBytes Params G hq hG, ?_, ?_⟩, ?_, ?_⟩
  · obtain ⟨sel, he, hsub⟩ := prepareNoOpLoop_sublist (toUint64 MaxTxBytes) G txs
      ((NewDefaultTxSelector : TxSelector T), [Call.Query 0])
    rw [he]
    simpa [NewDefaultTxSelector] using hsub
  · intro p hp hb hg
    have hw := prepareNoOpLoop_within (toUint64 MaxTxBytes) G txs
      ((NewDefaultTxSelector : TxSelector T), [Call.Query 0])
      (NewDefaultTxSelector_within _ _)
    have := prepareNoOpLoop_prefix (toUint64 MaxTxBytes) G txs
      ((NewDefaultTxSelector : TxSelector T), [Call.Query 0]) p hp
      (by simpa [NewDefaultTxSelector] using hb)
      (by simpa [NewDefaultTxSelector] using hg)
    simp only [NewDefaultTxSelector, List.nil_append] at this
    rcases this with h | ⟨h, hge⟩
    · exact Or.inl h
    · refine Or.inr ⟨h, ?_⟩
      rw [← hw.1]
      exact hge
  · exact PrepareHandler_noOp mp hmp NewDefaultTxSelector app [] MaxTxBytes Params G hq hG
  · intro pre t
    have hw := prepareNoOpLoop_within (toUint64 MaxTxBytes) G pre
      ((NewDefaultTxSelector : TxSelector T), [Call.Query 0])
      (NewDefaultTxSelector_within _ _)
    obtain ⟨hbytes, hgas, _, _⟩ := hw
    obtain ⟨happ1, happ2⟩ := prepareNoOpLoop_append (toUint64 MaxTxBytes) G pre [t]
      ((NewDefaultTxSelector : TxSelector T), [Call.Query 0])
    refine ⟨_, _, PrepareHandler_noOp mp hmp _ app pre MaxTxBytes Params G hq hG,
      PrepareHandler_noOp mp hmp _ app (pre ++ [t]) MaxTxBytes Params G hq hG, ?_, ?_, ?_⟩
    · intro hne hge
      rw [← hbytes] at hge
      rw [happ1 hne hge]
    · intro hor hfit
      rw [← hbytes] at hor hfit
      rw [← hgas] at hfit
      rw [happ2 hor, prepareNoOpLoop_singleton]
      dsimp only
      rcases SelectTxForProposal_cases
        (prepareNoOpLoop (toUint64 MaxTxBytes) G pre
          ((NewDefaultTxSelector : TxSelector T), [Call.Query 0])).1
        (toUint64 MaxTxBytes) G t with ⟨_, h2, _⟩ | ⟨hno, _, _⟩
      · rw [h2]
      · exact absurd hfit hno
    · intro hor hfit
      rw [← hbytes] at hor hfit
      rw [← hgas] at hfit
      rw [happ2 hor, prepareNoOpLoop_singleton]
      dsimp only
      rcases SelectTxForProposal_cases
        (prepareNoOpLoop (toUint64 MaxTxBytes) G pre
          ((NewDefaultTxSelector : TxSelector T), [Call.Query 0])).1
        (toUint64 MaxTxBytes) G t with ⟨hyes, _, _⟩ | ⟨_, h2, _⟩
      · exact absurd hyes hfit
      · rw [h2]

/-- C7 (amended) at a concrete input: with the no-op mempool, gas ceiling 100
and byte budget 1000, the result for the first two transactions of `txsGasSkip`
is the first one alone (the second is skipped), and the third transaction, which
fits, is still included. -/
theorem C7_PrepareHandler_noOp_fifo_witness :
    (PrepareHandler (NewDefaultProposalHandler .NoOp) (appAcceptAll 100)
      [⟨0, 60, 1⟩, ⟨2, 60, 1⟩] (.PrepareProposal 1000)).result = .ok [⟨0, 60, 1⟩] ∧
    (PrepareHandler (NewDefaultProposalHandler .NoOp) (appAcceptAll 100)
      ([⟨0, 60, 1⟩, ⟨2, 60, 1⟩] ++ [⟨3, 30, 1⟩]) (.PrepareProposal 1000)).result
      = .ok ([⟨0, 60, 1⟩] ++ [⟨3, 30, 1⟩]) := by
  have hpre : (PrepareHandler (NewDefaultProposalHandler .NoOp) (appAcceptAll 100)
      [⟨0, 60, 1⟩, ⟨2, 60, 1⟩] (.PrepareProposal 1000)).result = .ok [⟨0, 60, 1⟩] := by decide
  refine ⟨hpre, ?_⟩
  obtain ⟨outPre, out, h1, h2, _, hfit, _⟩ :=
    (C7_PrepareHandler_noOp_fifo (.NoOp) rfl (appAcceptAll 100) txsGasSkip 1000
      (some (paramsWithMaxGas 100)) 100 rfl rfl).2.2 [⟨0, 60, 1⟩, ⟨2, 60, 1⟩] ⟨3, 30, 1⟩
  rw [hpre] at h1
  injection h1 with h1
  subst h1
  rw [h2, hfit (Or.inr (by decide)) (by decide)]

/-! ## PrepareHandler with a mempool -/

/-- The mempool loop keeps the selector within the budget. -/
theorem prepareMempoolLoop_within {T : Type} [Tx T] (app : AppManager T) (mp : MempoolImpl T)
    (B G : Nat) (order : List T) (st : TxSelector T × List (Call T)) (h : st.1.Within B G) :
    (prepareMempoolLoop app mp B G order st).2.1.Within B G := by
  induction order generalizing st with
  | nil => exact h
  | cons t next ih =>
    unfold prepareMempoolLoop
    rcases hv : app.ValidateTx t with e | u
    · dsimp only
      rcases hr : mp.Remove t with _ | err
      · exact ih (st.1, _) h
      · dsimp only
        split
        · exact h
        · exact ih (st.1, _) h
    · dsimp only
      have h1 := SelectTxForProposal_within st.1 B G t h
      split
      · exact h1
      · exact ih (_, _) h1

/-- The transactions validated in a concatenation of calls. -/
theorem visitedTxs_append {T : Type} (a b : List (Call T)) :
    visitedTxs (a ++ b) = visitedTxs a ++ visitedTxs b := by
  simp [visitedTxs, List.filterMap_append]

/-- What the mempool loop does, relative to the state it starts from: the
calls made are appended to the calls so far, the selector accumulates only
transactions that passed `ValidateTx` in this loop, every transaction that
failed `ValidateTx` was passed to `Remove`, the visited transactions are a
prefix of the iteration order starting with its first element, and, when the
loop ends without error, the successor of a visited invalid transaction is
visited too. -/
theorem prepareMempoolLoop_spec {T : Type} [Tx T] (app : AppManager T) (mp : MempoolImpl T)
    (B G : Nat) (order : List T) (st : TxSelector T × List (Call T)) :
    ∃ extra sel,
      (prepareMempoolLoop app mp B G order st).2.2 = st.2 ++ extra ∧
      (prepareMempoolLoop app mp B G order st).2.1.selectedTxs = st.1.selectedTxs ++ sel ∧
      (∀ tx ∈ sel, app.ValidateTx tx = .ok () ∧ Call.ValidateTx tx ∈ extra) ∧
      (∀ tx, Call.ValidateTx tx ∈ extra → app.ValidateTx tx ≠ .ok () →
        Call.MempoolRemove tx ∈ extra) ∧
      visitedTxs extra <+: order ∧
      (order ≠ [] → visitedTxs extra ≠ []) ∧
      ((prepareMempoolLoop app mp B G order st).1 = none →
        ∀ i tx, order[i]? = some tx → i < (visitedTxs extra).length →
          app.ValidateTx tx ≠ .ok () → i + 1 < order.length →
          i + 1 < (visitedTxs extra).length) := by
  induction order generalizing st with
  | nil =>
    refine ⟨[], [], by simp [prepareMempoolLoop], by simp [prepareMempoolLoop], ?_, ?_, ?_, ?_, ?_⟩
    · intro tx htx; simp at htx
    · intro tx htx; simp at htx
    · simp [visitedTxs]
    · intro h; exact absurd rfl h
    · intro _ i tx hi; simp at hi
  | cons t next ih =>
    rcases hv : app.ValidateTx t with e | u
    · -- the transaction fails validation and is removed from the pool
      have hstep : ∀ r, prepareMempoolLoop app mp B G (t :: next) st = r →
          (mp.Remove t = none ∨ ∃ err, mp.Remove t = some err ∧ err.isTxNotFound = true) →
          r = prepareMempoolLoop app mp B G next
            (st.1, st.2 ++ [Call.ValidateTx t, Call.MempoolRemove t]) := by
        intro r hr hrem
        rw [← hr]
        conv_lhs => unfold prepareMempoolLoop
        simp only [hv]
        rcases hrem with h0 | ⟨err, h1, h2⟩
        · simp only [h0]
        · simp only [h1, h2, Bool.not_true, Bool.false_eq_true, if_false]
      by_cases hrem : mp.Remove t = none ∨ ∃ err, mp.Remove t = some err ∧ err.isTxNotFound = true
      · rw [hstep _ rfl hrem]
        obtain ⟨extra, sel, hc, hs, hsel, hrm, hpre, hne, hcont⟩ :=
          ih (st.1, st.2 ++ [Call.ValidateTx t, Call.MempoolRemove t])
        have hvis : visitedTxs ([Call.ValidateTx t, Call.MempoolRemove t] ++ extra)
            = t :: visitedTxs extra := by
          rw [visitedTxs_append]; rfl
        refine ⟨[Call.ValidateTx t, Call.MempoolRemove t] ++ extra, sel, ?_, hs, ?_, ?_, ?_, ?_, ?_⟩
        · rw [hc]; simp
        · intro tx htx
          obtain ⟨h1, h2⟩ := hsel tx htx
          exact ⟨h1, List.mem_append_right _ h2⟩
        · intro tx htx hbad
          rcases List.mem_append.mp htx with h | h
          · have : tx = t := by simpa using h
            subst this
            simp
          · exact List.mem_append_right _ (hrm tx h hbad)
        · rw [hvis]
          exact List.cons_prefix_cons.mpr ⟨rfl, hpre⟩
        · intro _; rw [hvis]; simp
        · intro hnone i tx hi hlt hbad hlen
          rw [hvis] at hlt ⊢
          cases i with
          | zero =>
            have hnext : next ≠ [] := by
              intro h0; rw [h0] at hlen; simp at hlen
            have := hne hnext
            have hpos : 0 < (visitedTxs extra).length := List.length_pos.mpr this
            simp only [List.length_cons]
            omega
          | succ j =>
            simp only [List.length_cons] at hlt hlen ⊢
            have hj : next[j]? = some tx := by simpa using hi
            have := hcont hnone j tx hj (by omega) hbad (by omega)
            omega
      · -- `Remove` fails with an error other than `ErrTxNotFound`
        have hfatal : ∃ err, mp.Remove t = some err ∧ err.isTxNotFound = false := by
          rcases hr : mp.Remove t with _ | err
          · exact absurd (Or.inl hr) hrem
          · refine ⟨err, rfl, ?_⟩
            rcases hb : err.isTxNotFound with _ | _
            · rfl
            · exact absurd (Or.inr ⟨err, hr, hb⟩) hrem
        obtain ⟨err, h1, h2⟩ := hfatal
        have hres : prepareMempoolLoop app mp B G (t :: next) st =
            (some err, st.1, st.2 ++ [Call.ValidateTx t, Call.MempoolRemove t]) := by
          conv_lhs => unfold prepareMempoolLoop
          simp only [hv, h1, h2, Bool.not_false, if_true]
        rw [hres]
        refine ⟨[Call.ValidateTx t, Call.MempoolRemove t], [], rfl, by simp, ?_, ?_, ?_, ?_, ?_⟩
        · intro tx htx; simp at htx
        · intro tx htx _
          have : tx = t := by simpa using htx
          subst this
          simp
        · exact List.cons_prefix_cons.mpr ⟨rfl, List.nil_prefix⟩
        · intro _; simp [visitedTxs]
        · intro hnone; simp at hnone
    · -- the transaction passes validation and is offered to the selector
      have hvis1 : visitedTxs [Call.ValidateTx t, Call.SelectTxForProposal B G t] = [t] := rfl
      have hsel1 : ∃ s1, (st.1.SelectTxForProposal B G t).2.selectedTxs = st.1.selectedTxs ++ s1 ∧
          ∀ tx ∈ s1, tx = t := by
        rcases SelectTxForProposal_selected st.1 B G t with h | h
        · exact ⟨[], by simp [h], by intro tx htx; simp at htx⟩
        · exact ⟨[t], h, by intro tx htx; simpa using htx⟩
      obtain ⟨s1, hs1, hs1t⟩ := hsel1
      rcases hstop : (st.1.SelectTxForProposal B G t).1 with _ | _
      · have hres : prepareMempoolLoop app mp B G (t :: next) st =
            prepareMempoolLoop app mp B G next ((st.1.SelectTxForProposal B G t).2,
              st.2 ++ [Call.ValidateTx t, Call.SelectTxForProposal B G t]) := by
          conv_lhs => unfold prepareMempoolLoop
          simp only [hv, hstop, Bool.false_eq_true, if_false]
        rw [hres]
        obtain ⟨extra, sel, hc, hs, hsel, hrm, hpre, hne, hcont⟩ :=
          ih ((st.1.SelectTxForProposal B G t).2,
            st.2 ++ [Call.ValidateTx t, Call.SelectTxForProposal B G t])
        have hvis : visitedTxs ([Call.ValidateTx t, Call.SelectTxForProposal B G t] ++ extra)
            = t :: visitedTxs extra := by
          rw [visitedTxs_append]; rfl
        refine ⟨[Call.ValidateTx t, Call.SelectTxForProposal B G t] ++ extra, s1 ++ sel,
          ?_, ?_, ?_, ?_, ?_, ?_, ?_⟩
        · rw [hc]; simp
        · rw [hs]; dsimp only; rw [hs1, List.append_assoc]
        · intro tx htx
          rcases List.mem_append.mp htx with h | h
          · have := hs1t tx h
            subst this
            exact ⟨hv, by simp⟩
          · obtain ⟨h1, h2⟩ := hsel tx h
            exact ⟨h1, List.mem_append_right _ h2⟩
        · intro tx htx hbad
          rcases List.mem_append.mp htx with h | h
          · have : tx = t := by simpa using h
            subst this
            exact absurd hv hbad
          · exact List.mem_append_right _ (hrm tx h hbad)
        · rw [hvis]
          exact List.cons_prefix_cons.mpr ⟨rfl, hpre⟩
        · intro _; rw [hvis]; simp
        · intro hnone i tx hi hlt hbad hlen
          rw [hvis] at hlt ⊢
          cases i with
          | zero =>
            have : tx = t := by simpa using hi.symm
            subst this
            exact absurd hv hbad
          | succ j =>
            simp only [List.length_cons] at hlt hlen ⊢
            have hj : next[j]? = some tx := by simpa using hi
            have := hcont hnone j tx hj (by omega) hbad (by omega)
            omega
      · have hres : prepareMempoolLoop app mp B G (t :: next) st =
            (none, (st.1.SelectTxForProposal B G t).2,
              st.2 ++ [Call.ValidateTx t, Call.SelectTxForProposal B G t]) := by
          conv_lhs => unfold prepareMempoolLoop
          simp only [hv, hstop, if_true]
        rw [hres]
        refine ⟨[Call.ValidateTx t, Call.SelectTxForProposal B G t], s1, rfl, hs1, ?_, ?_, ?_, ?_, ?_⟩
        · intro tx htx
          have := hs1t tx htx
          subst this
          exact ⟨hv, by simp⟩
        · intro tx htx hbad
          have : tx = t := by simpa using htx
          subst this
          exact absurd hv hbad
        · rw [hvis1]
          exact List.cons_prefix_cons.mpr ⟨rfl, List.nil_prefix⟩
        · intro _; rw [hvis1]; simp
        · intro _ i tx hi hlt hbad _
          rw [hvis1] at hlt
          have hi0 : i = 0 := by simpa using hlt
          subst hi0
          have : tx = t := by simpa using hi.symm
          subst this
          exact absurd hv hbad

/-- With a real mempool, a PrepareProposal request and a consensus-params
response whose gas ceiling reads as `G`, `PrepareHandler` runs the mempool loop
over the iteration order of `Select` and then clears the selector. -/
theorem PrepareHandler_impl {T : Type} [Tx T] (mp : MempoolImpl T) (ts : TxSelector T)
    (app : AppManager T) (txs : List T) (MaxTxBytes : Int)
    (Params : Option AppConsensusParams) (G : Nat)
    (hq : app.Query 0 = .ok (.QueryParamsResponse Params)) (hG : maxBlockGasOf Params = some G) :
    PrepareHandler ⟨.Impl mp, ts⟩ app txs (.PrepareProposal MaxTxBytes) =
      match (prepareMempoolLoop app mp (toUint64 MaxTxBytes) G (mp.Select txs)
          (ts, [.Query 0, .MempoolSelect txs])).1 with
      | some err =>
        ⟨.error (.remove err),
          ⟨.Impl mp, (prepareMempoolLoop app mp (toUint64 MaxTxBytes) G (mp.Select txs)
            (ts, [.Query 0, .MempoolSelect txs])).2.1.Clear⟩,
          (prepareMempoolLoop app mp (toUint64 MaxTxBytes) G (mp.Select txs)
            (ts, [.Query 0, .MempoolSelect txs])).2.2 ++ [.Clear]⟩
      | none =>
        ⟨.ok (prepareMempoolLoop app mp (toUint64 MaxTxBytes) G (mp.Select txs)
            (ts, [.Query 0, .MempoolSelect txs])).2.1.selectedTxs,
          ⟨.Impl mp, (prepareMempoolLoop app mp (toUint64 MaxTxBytes) G (mp.Select txs)
            (ts, [.Query 0, .MempoolSelect txs])).2.1.Clear⟩,
          (prepareMempoolLoop app mp (toUint64 MaxTxBytes) G (mp.Select txs)
            (ts, [.Query 0, .MempoolSelect txs])).2.2 ++ [.SelectedTxs, .Clear]⟩ := by
  unfold PrepareHandler
  simp only [hq, hG]
  rfl

/-- C3 as stated fails: a PrepareProposal request carrying `MaxTxBytes = -1`
is served with the byte budget `uint64(-1) = 2^64 - 1`, so with the no-op
mempool and unlimited gas a one-byte transaction is returned, of cumulative
size 1, above `-1`. -/
theorem C3_counterexample :
    IsInt64 (-1) ∧
    (PrepareHandler (NewDefaultProposalHandler .NoOp) (appAcceptAll 0) [⟨0, 10, 1⟩]
      (.PrepareProposal (-1))).result = .ok [⟨0, 10, 1⟩] ∧
    ¬ ((totalSize [(⟨0, 10, 1⟩ : SimpleTx)] : Int) ≤ -1) := by
  refine ⟨by decide, by decide, by decide⟩

/-- C3, amended: for every candidate list, mempool, `MaxTxBytes` carried by
the PrepareProposal request and gas ceiling `G` read from the consensus-params
response, the list returned by `PrepareHandler` has cumulative encoded size at
most `uint64(MaxTxBytes)`, hence at most `MaxTxBytes` when that is
non-negative, and, when `G` is non-zero, cumulative declared gas at most `G`. -/
theorem C3_PrepareHandler_within_budget {T : Type} [Tx T] (mp : Mempool T)
    (app : AppManager T) (txs : List T) (MaxTxBytes : Int)
    (Params : Option AppConsensusParams) (G : Nat) (out : List T)
    (hq : app.Query 0 = .ok (.QueryParamsResponse Params)) (hG : maxBlockGasOf Params = some G)
    (hres : (PrepareHandler (NewDefaultProposalHandler mp) app txs
      (.PrepareProposal MaxTxBytes)).result = .ok out) :
    totalSize out ≤ toUint64 MaxTxBytes ∧
    (G ≠ 0 → totalGas out ≤ G) ∧
    (0 ≤ MaxTxBytes → (totalSize out : Int) ≤ MaxTxBytes) := by
  have hkey : ∃ ts : TxSelector T, ts.Within (toUint64 MaxTxBytes) G ∧ ts.selectedTxs = out := by
    by_cases hmp : mp.isNilOrNoOp = true
    · have h := PrepareHandler_noOp mp hmp NewDefaultTxSelector app txs MaxTxBytes Params G hq hG
      unfold NewDefaultProposalHandler at hres
      rw [h] at hres
      refine ⟨_, prepareNoOpLoop_within (toUint64 MaxTxBytes) G txs
        ((NewDefaultTxSelector : TxSelector T), [Call.Query 0])
        (NewDefaultTxSelector_within _ _), ?_⟩
      injection hres
    · cases mp with
      | Nil => simp [Mempool.isNilOrNoOp] at hmp
      | NoOp => simp [Mempool.isNilOrNoOp] at hmp
      | Impl m =>
        have h := PrepareHandler_impl m NewDefaultTxSelector app txs MaxTxBytes Params G hq hG
        unfold NewDefaultProposalHandler at hres
        rw [h] at hres
        refine ⟨_, prepareMempoolLoop_within app m (toUint64 MaxTxBytes) G (m.Select txs)
          ((NewDefaultTxSelector : TxSelector T), [Call.Query 0, Call.MempoolSelect txs])
          (NewDefaultTxSelector_within _ _), ?_⟩
        rcases hl : (prepareMempoolLoop app m (toUint64 MaxTxBytes) G (m.Select txs)
          ((NewDefaultTxSelector : TxSelector T), [Call.Query 0, Call.MempoolSelect txs])).1
          with _ | err
        · rw [hl] at hres
          injection hres
        · rw [hl] at hres
          cases hres
  obtain ⟨ts, ⟨e1, e2, hb, hg⟩, hsel⟩ := hkey
  subst hsel
  have hsize : totalSize ts.selectedTxs ≤ toUint64 MaxTxBytes := by rw [← e1]; exact hb
  refine ⟨hsize, ?_, ?_⟩
  · intro hG0
    rw [← e2]
    exact hg hG0
  · intro hnn
    have : (toUint64 MaxTxBytes : Int) ≤ MaxTxBytes := by
      unfold toUint64
      omega
    omega

/-- C3 (amended) at a concrete input: FIFO mempool, gas ceiling 100, byte budget 2 and
three one-byte transactions declaring gas 60, 60 and 30: the returned list is
within both budgets. -/
theorem C3_PrepareHandler_within_budget_witness :
    (PrepareHandler (NewDefaultProposalHandler (.Impl fifoMempool)) (appAcceptAll 100)
      txsGasSkip (.PrepareProposal 2)).result = .ok [⟨0, 60, 1⟩, ⟨3, 30, 1⟩] ∧
    totalSize [(⟨0, 60, 1⟩ : SimpleTx), ⟨3, 30, 1⟩] ≤ toUint64 2 ∧
    ((100 : Nat) ≠ 0 → totalGas [(⟨0, 60, 1⟩ : SimpleTx), ⟨3, 30, 1⟩] ≤ 100) ∧
    ((0 : Int) ≤ 2 → (totalSize [(⟨0, 60, 1⟩ : SimpleTx), ⟨3, 30, 1⟩] : Int) ≤ 2) :=
  ⟨by decide,
    C3_PrepareHandler_within_budget (.Impl fifoMempool) (appAcceptAll 100) txsGasSkip 2
      (some (paramsWithMaxGas 100)) 100 [⟨0, 60, 1⟩, ⟨3, 30, 1⟩] rfl rfl (by decide)⟩

/-- C4: with a real mempool and whatever order its `Select` iterator yields:
every visited transaction that failed `ValidateTx` was passed to
`mempool.Remove`; and when `PrepareHandler` returns a list, every transaction in
it passed `ValidateTx` during this call, no transaction failing `ValidateTx` is
in it, the visited transactions are a prefix of the iteration order, and the
transaction that comes after a visited invalid one is visited as well
(iteration continues). -/
theorem C4_PrepareHandler_mempool_revalidates {T : Type} [Tx T] (mp : MempoolImpl T)
    (app : AppManager T) (txs : List T) (req : Request) :
    (∀ tx, Call.ValidateTx tx ∈
        (PrepareHandler (NewDefaultProposalHandler (.Impl mp)) app txs req).calls →
      app.ValidateTx tx ≠ .ok () →
      Call.MempoolRemove tx ∈
        (PrepareHandler (NewDefaultProposalHandler (.Impl mp)) app txs req).calls) ∧
    (∀ out, (PrepareHandler (NewDefaultProposalHandler (.Impl mp)) app txs req).result = .ok out →
      (∀ tx ∈ out, app.ValidateTx tx = .ok () ∧ Call.ValidateTx tx ∈
        (PrepareHandler (NewDefaultProposalHandler (.Impl mp)) app txs req).calls) ∧
      (∀ tx, app.ValidateTx tx ≠ .ok () → tx ∉ out) ∧
      visitedTxs (PrepareHandler (NewDefaultProposalHandler (.Impl mp)) app txs req).calls
        <+: mp.Select txs ∧
      (∀ i tx, (mp.Select txs)[i]? = some tx →
        i < (visitedTxs
          (PrepareHandler (NewDefaultProposalHandler (.Impl mp)) app txs req).calls).length →
        app.ValidateTx tx ≠ .ok () → i + 1 < (mp.Select txs).length →
        i + 1 < (visitedTxs
          (PrepareHandler (NewDefaultProposalHandler (.Impl mp)) app txs req).calls).length)) := by
  cases req with
  | ProcessProposal => simp [PrepareHandler]
  | Other name => simp [PrepareHandler]
  | PrepareProposal MaxTxBytes =>
    rcases hq : app.Query 0 with e | resp
    · simp [PrepareHandler, hq]
    · cases resp with
      | Other name => simp [PrepareHandler, hq]
      | QueryParamsResponse Params =>
        rcases hG : maxBlockGasOf Params with _ | G
        · simp [PrepareHandler, hq, hG]
        · unfold NewDefaultProposalHandler
          rw [PrepareHandler_impl mp NewDefaultTxSelector app txs MaxTxBytes Params G hq hG]
          obtain ⟨extra, sel, hc, hs, hsel, hrm, hpre, _, hcont⟩ :=
            prepareMempoolLoop_spec app mp (toUint64 MaxTxBytes) G (mp.Select txs)
              ((NewDefaultTxSelector : TxSelector T), [Call.Query 0, Call.MempoolSelect txs])
          generalize prepareMempoolLoop app mp (toUint64 MaxTxBytes) G (mp.Select txs)
            ((NewDefaultTxSelector : TxSelector T), [Call.Query 0, Call.MempoolSelect txs]) = r
            at hc hs hcont
          obtain ⟨r1, r2, r3⟩ := r
          dsimp only at hc hs hcont
          subst hc
          have hsel0 : r2.selectedTxs = sel := by
            rw [hs]; simp [NewDefaultTxSelector]
          have hval : ∀ (tx : T) (suffix : List (Call T)),
              (∀ c ∈ suffix, c = Call.SelectedTxs ∨ c = Call.Clear) →
              (Call.ValidateTx tx ∈ [Call.Query 0, Call.MempoolSelect txs] ++ extra ++ suffix ↔
                Call.ValidateTx tx ∈ extra) := by
            intro tx suffix hsuf
            constructor
            · intro h
              rcases List.mem_append.mp h with h1 | h1
              · rcases List.mem_append.mp h1 with h2 | h2
                · simp at h2
                · exact h2
              · rcases hsuf _ h1 with h3 | h3 <;> cases h3
            · intro h
              exact List.mem_append_left _ (List.mem_append_right _ h)
          have hvis : ∀ suffix : List (Call T),
              (∀ c ∈ suffix, c = Call.SelectedTxs ∨ c = Call.Clear) →
              visitedTxs ([Call.Query 0, Call.MempoolSelect txs] ++ extra ++ suffix)
                = visitedTxs extra := by
            intro suffix hsuf
            rw [visitedTxs_append, visitedTxs_append]
            have h1 : visitedTxs [Call.Query 0, Call.MempoolSelect txs] = ([] : List T) := rfl
            have h2 : visitedTxs suffix = [] := by
              unfold visitedTxs
              rw [List.filterMap_eq_nil_iff]
              intro c hcm
              rcases hsuf c hcm with h3 | h3 <;> subst h3 <;> rfl
            rw [h1, h2]; simp
          have hsufA : ∀ c ∈ [(Call.Clear : Call T)], c = Call.SelectedTxs ∨ c = Call.Clear := by
            intro c hcm; right; simpa using hcm
          have hsufB : ∀ c ∈ [(Call.SelectedTxs : Call T), Call.Clear],
              c = Call.SelectedTxs ∨ c = Call.Clear := by
            intro c hcm; simpa using hcm
          cases r1 with
          | some err =>
            dsimp only
            refine ⟨?_, ?_⟩
            · intro tx hv hbad
              rw [hval tx _ hsufA] at hv
              exact List.mem_append_left _ (List.mem_append_right _ (hrm tx hv hbad))
            · intro out hout; cases hout
          | none =>
            dsimp only
            refine ⟨?_, ?_⟩
            · intro tx hv hbad
              rw [hval tx _ hsufB] at hv
              exact List.mem_append_left _ (List.mem_append_right _ (hrm tx hv hbad))
            · intro out hout
              have hout2 : sel = out := by
                rw [← hsel0]; injection hout
              subst hout2
              refine ⟨?_, ?_, ?_, ?_⟩
              · intro tx htx
                obtain ⟨h1, h2⟩ := hsel tx htx
                exact ⟨h1, (hval tx _ hsufB).mpr h2⟩
              · intro tx hbad htx
                exact hbad (hsel tx htx).1
              · rw [hvis _ hsufB]; exact hpre
              · rw [hvis _ hsufB]
                exact hcont rfl

/-- C4 at a concrete input: a FIFO mempool yielding a valid, an invalid and a
valid transaction: the invalid one is passed to `Remove` and left out, and the
valid one after it is visited and selected. -/
theorem C4_PrepareHandler_mempool_revalidates_witness :
    (PrepareHandler (NewDefaultProposalHandler (.Impl fifoMempool)) (appRejectOne 0)
      txsInvalidMiddle (.PrepareProposal 1000)).result = .ok [⟨0, 10, 1⟩, ⟨2, 10, 1⟩] ∧
    visitedTxs (PrepareHandler (NewDefaultProposalHandler (.Impl fifoMempool)) (appRejectOne 0)
      txsInvalidMiddle (.PrepareProposal 1000)).calls = txsInvalidMiddle ∧
    Call.MempoolRemove (⟨1, 10, 1⟩ : SimpleTx) ∈
      (PrepareHandler (NewDefaultProposalHandler (.Impl fifoMempool)) (appRejectOne 0)
        txsInvalidMiddle (.PrepareProposal 1000)).calls :=
  ⟨by decide, by decide,
    (C4_PrepareHandler_mempool_revalidates fifoMempool (appRejectOne 0) txsInvalidMiddle
      (.PrepareProposal 1000)).1 ⟨1, 10, 1⟩ (by decide) (by simp [appRejectOne])⟩

/-! ## Consensus params query -/

/-- What `GetConsensusParams` copies into the evidence section when it returns
params: the number of blocks unchanged, and the `Seconds` field of the App's
duration as the nanosecond count of the wire duration. -/
theorem GetConsensusParams_evidence {T : Type} (app : AppManager T)
    (storeLatestVersion : Nat × Option String) (cs : WireConsensusParams)
    (h : GetConsensusParams app storeLatestVersion = .ok cs) :
    ∃ p ev d, app.Query storeLatestVersion.1 = .ok (.QueryParamsResponse (some p)) ∧
      p.Evidence = some ev ∧ ev.MaxAgeDuration = some d ∧
      cs.Evidence.MaxAgeNumBlocks = ev.MaxAgeNumBlocks ∧
      cs.Evidence.MaxAgeDuration = d.Seconds := by
  unfold GetConsensusParams at h
  dsimp only at h
  rcases hq : app.Query storeLatestVersion.1 with e | resp
  · rw [hq] at h; cases h
  · rw [hq] at h
    cases resp with
    | Other n => cases h
    | QueryParamsResponse Params =>
      cases Params with
      | none => cases h
      | some p =>
        dsimp only at h
        rcases hE : p.Evidence with _ | ev
        · rw [hE] at h; cases h
        · rw [hE] at h
          dsimp only at h
          rcases hD : ev.MaxAgeDuration with _ | d
          · rw [hD] at h; cases h
          · rw [hD] at h
            dsimp only at h
            refine ⟨p, ev, d, rfl, hE, hD, ?_⟩
            split at h
            · injection h with h
              subst h
              exact ⟨rfl, rfl⟩
            · cases h

/-- C11, the code at an App whose evidence max age is 100000 blocks and 172800
seconds: `time.Duration(Seconds)` reads the seconds as nanoseconds, so the wire
`MaxAgeDuration` is 172800 nanoseconds, whereas the App's duration spans
172800000000000 nanoseconds; the number of blocks is carried over unchanged. -/
theorem C11_GetConsensusParams_duration_unit :
    (∃ cs, GetConsensusParams appParamsFull (7, none) = .ok cs ∧
      cs.Evidence.MaxAgeNumBlocks = 100000 ∧
      cs.Evidence.MaxAgeDuration = 172800) ∧
    Duration.nanoseconds { Seconds := 172800, Nanos := 0 } = 172800000000000 := by
  refine ⟨⟨_, rfl, rfl, rfl⟩, by decide⟩

/-! ## Height continuity, as an invariant -/

/-- C12 as stated fails: with nothing committed and the initial height
configured as 0, the request height 1 is accepted, and 1 is not the configured
initial height. -/
theorem C12_counterexample :
    IsUint64 cfgInitialZero.InitialHeight ∧ IsInt64 1 ∧
    validateFinalizeBlockHeight cfgInitialZero (.ok 0) 1 = .ok () ∧
    (1 : Int) ≠ (cfgInitialZero.InitialHeight : Int) := by
  refine ⟨by decide, by decide, by rfl, by decide⟩

/-- C12, amended: whenever `validateFinalizeBlockHeight` accepts a request of
height `h`: if no block has been committed yet then `h` equals the configured
initial height when that is at least 1, and equals 1 when the initial height is
configured as 0; otherwise `h` equals the last committed height plus 1. -/
theorem C12_accepted_height (cfg : Config) (L : Nat) (h : Int)
    (hL : IsUint64 L) (hI : IsUint64 cfg.InitialHeight) (hh : IsInt64 h)
    (hacc : validateFinalizeBlockHeight cfg (.ok L) h = .ok ()) :
    (L = 0 → 1 ≤ cfg.InitialHeight → h = (cfg.InitialHeight : Int)) ∧
    (L = 0 → cfg.InitialHeight = 0 → h = 1) ∧
    (L ≠ 0 → h = (L : Int) + 1) := by
  obtain ⟨_, he⟩ := (validateFinalizeBlockHeight_iff cfg L h hL hI hh).mp hacc
  refine ⟨?_, ?_, ?_⟩
  · intro h0 h1
    by_cases hc : L = 0 ∧ cfg.InitialHeight > 1
    · rw [if_pos hc] at he; exact he
    · rw [if_neg hc] at he
      have : cfg.InitialHeight = 1 := by omega
      omega
  · intro h0 h1
    have hc : ¬ (L = 0 ∧ cfg.InitialHeight > 1) := by omega
    rw [if_neg hc] at he
    omega
  · intro h0
    have hc : ¬ (L = 0 ∧ cfg.InitialHeight > 1) := by
      intro hx; exact h0 hx.1
    rw [if_neg hc] at he
    exact he

/-- C12 (amended) at a concrete input: nothing committed, initial height 5,
request height 5. -/
theorem C12_accepted_height_witness :
    validateFinalizeBlockHeight ⟨0, 0, 0, 5⟩ (.ok 0) 5 = .ok () ∧
    ((0 : Nat) = 0 → 1 ≤ (Config.mk 0 0 0 5).InitialHeight →
      (5 : Int) = ((Config.mk 0 0 0 5).InitialHeight : Int)) :=
  ⟨rfl, (C12_accepted_height ⟨0, 0, 0, 5⟩ 0 5 (by decide) (by decide) (by decide) rfl).1⟩

/-! ## Retention height is never negative -/

/-- C20: for every configuration, consensus params, snapshot manager and
commit height, also negative ones and those at the edges of the `int64` range,
the value returned by `GetBlockRetentionHeight` is at least 0. -/
theorem C20_GetBlockRetentionHeight_nonneg (cfg : Config) (snapshotManager : Option Int)
    (cp : ConsensusParams) (commitHeight : Int) :
    0 ≤ GetBlockRetentionHeight cfg snapshotManager cp commitHeight := by
  unfold GetBlockRetentionHeight
  split
  · exact le_refl 0
  · dsimp only
    split
    · exact le_refl 0
    · rename_i hpos
      exact le_of_lt (not_le.mp hpos)

/-! ## PrepareHandler: early exits and selector state -/

/-- C16: `PrepareHandler` returns an error and no transaction list, without
calling `App.ValidateTx`, the mempool or the `TxSelector`, whenever the request
is not a PrepareProposal request (then the App is not queried at all), or the
consensus-params query, issued at version 0, returns an error (returned
unchanged), or that query returns a response of another type. -/
theorem C16_PrepareHandler_early_exits {T : Type} [Tx T] (h : DefaultProposalHandler T)
    (app : AppManager T) (txs : List T) (req : Request) :
    ((∀ m, req ≠ .PrepareProposal m) →
      PrepareHandler h app txs req = ⟨.error .invalidRequestType, h, []⟩) ∧
    (∀ m err, req = .PrepareProposal m → app.Query 0 = .error err →
      PrepareHandler h app txs req = ⟨.error (.query err), h, [.Query 0]⟩) ∧
    (∀ m name, req = .PrepareProposal m → app.Query 0 = .ok (.Other name) →
      PrepareHandler h app txs req = ⟨.error .unexpectedResponseType, h, [.Query 0]⟩) := by
  refine ⟨?_, ?_, ?_⟩
  · intro hreq
    cases req with
    | PrepareProposal m => exact absurd rfl (hreq m)
    | ProcessProposal => rfl
    | Other name => rfl
  · intro m err hreq hq
    subst hreq
    unfold PrepareHandler
    simp only [hq]
  · intro m name hreq hq
    subst hreq
    unfold PrepareHandler
    simp only [hq]

/-- C16 at a concrete input: a PrepareProposal request served by an App whose
query fails: the query error comes back unchanged after the single call
`Query` at version 0. -/
theorem C16_PrepareHandler_early_exits_witness :
    PrepareHandler (NewDefaultProposalHandler (.Impl fifoMempool)) appQueryFails txsGasForty
        (.PrepareProposal 1000) =
      ⟨.error (.query "query failed"), NewDefaultProposalHandler (.Impl fifoMempool),
        [.Query 0]⟩ :=
  (C16_PrepareHandler_early_exits (NewDefaultProposalHandler (.Impl fifoMempool)) appQueryFails
    txsGasForty (.PrepareProposal 1000)).2.1 1000 "query failed" rfl rfl

/-- After a call of `PrepareHandler` the selector is cleared if it was cleared
before, on every exit path; the mempool field is never changed. -/
theorem PrepareHandler_selector_cleared {T : Type} [Tx T] (mp : Mempool T) (app : AppManager T)
    (txs : List T) (req : Request) :
    (PrepareHandler ⟨mp, NewDefaultTxSelector⟩ app txs req).handler
      = ⟨mp, NewDefaultTxSelector⟩ := by
  unfold PrepareHandler
  cases req with
  | ProcessProposal => rfl
  | Other name => rfl
  | PrepareProposal m =>
    dsimp only
    rcases app.Query 0 with e | resp
    · rfl
    · cases resp with
      | Other name => rfl
      | QueryParamsResponse Params =>
        dsimp only
        rcases maxBlockGasOf Params with _ | G
        · rfl
        · cases mp with
          | Nil => rfl
          | NoOp => rfl
          | Impl m1 =>
            dsimp only
            split <;> rfl

/-- Once the consensus params have been read, the deferred `Clear` leaves the
selector cleared whatever state it was in before the call. -/
theorem PrepareHandler_clears_after_params {T : Type} [Tx T] (h : DefaultProposalHandler T)
    (app : AppManager T) (txs : List T) (MaxTxBytes : Int)
    (Params : Option AppConsensusParams) (G : Nat)
    (hq : app.Query 0 = .ok (.QueryParamsResponse Params)) (hG : maxBlockGasOf Params = some G) :
    (PrepareHandler h app txs (.PrepareProposal MaxTxBytes)).handler.txSelector
      = NewDefaultTxSelector := by
  unfold PrepareHandler
  simp only [hq, hG]
  rcases h with ⟨mp, ts⟩
  cases mp with
  | Nil => rfl
  | NoOp => rfl
  | Impl m1 =>
    dsimp only
    split <;> rfl

/-- A sequence of `PrepareHandler` calls started with a cleared selector ends
with a cleared selector. -/
theorem prepareCalls_cleared {T : Type} [Tx T]
    (calls : List (Mempool T × AppManager T × List T × Request)) :
    prepareCalls (NewDefaultTxSelector : TxSelector T) calls = NewDefaultTxSelector := by
  induction calls with
  | nil => rfl
  | cons c rest ih =>
    obtain ⟨mp, app, txs, req⟩ := c
    unfold prepareCalls
    rw [PrepareHandler_selector_cleared mp app txs req]
    exact ih

/-- C15: starting from a newly constructed handler, after any sequence of
`PrepareHandler` calls, whichever exit path each call takes, the `TxSelector`
is in its cleared state (no selected transactions, zero accumulated bytes and
gas); so the next call returns what a newly constructed handler returns, and
leaves the selector cleared again. -/
theorem C15_PrepareHandler_selector_cleared {T : Type} [Tx T]
    (calls : List (Mempool T × AppManager T × List T × Request))
    (mp : Mempool T) (app : AppManager T) (txs : List T) (req : Request) :
    (prepareCalls (NewDefaultProposalHandler mp).txSelector calls).selectedTxs = [] ∧
    (prepareCalls (NewDefaultProposalHandler mp).txSelector calls).totalTxBytes = 0 ∧
    (prepareCalls (NewDefaultProposalHandler mp).txSelector calls).totalTxGas = 0 ∧
    (PrepareHandler ⟨mp, prepareCalls (NewDefaultProposalHandler mp).txSelector calls⟩
        app txs req).result
      = (PrepareHandler (NewDefaultProposalHandler mp) app txs req).result ∧
    (PrepareHandler ⟨mp, prepareCalls (NewDefaultProposalHandler mp).txSelector calls⟩
        app txs req).handler.txSelector = NewDefaultTxSelector := by
  have hc : prepareCalls (NewDefaultProposalHandler mp).txSelector calls
      = NewDefaultTxSelector := prepareCalls_cleared calls
  rw [hc]
  refine ⟨rfl, rfl, rfl, rfl, ?_⟩
  rw [PrepareHandler_selector_cleared mp app txs req]

/-! ## ProcessHandler: where the gas ceiling is exceeded -/

/-- As long as the running `uint64` total does not wrap around, the loop of
`ProcessHandler` over valid transactions stops at the first prefix whose
cumulative gas exceeds a non-zero ceiling, reports that prefix's total, and has
validated the transactions of that prefix and no other. -/
theorem processLoop_rejects_at_first_exceeding {T : Type} [Tx T] (app : AppManager T) (G : Nat)
    (pre : List T) (t : T) (post : List T) (st : Nat × List (Call T)) (hG : 0 < G)
    (hvalid : ∀ x ∈ pre ++ [t], app.ValidateTx x = .ok ())
    (hpre : st.1 + totalGas pre ≤ G)
    (hex : G < st.1 + totalGas pre + Tx.GetGasLimit t)
    (hno : st.1 + totalGas pre + Tx.GetGasLimit t < 18446744073709551616) :
    processLoop app G (pre ++ t :: post) st =
      (some (.gasExceeded (st.1 + totalGas pre + Tx.GetGasLimit t) G),
        st.2 ++ (pre ++ [t]).map Call.ValidateTx) := by
  induction pre generalizing st with
  | nil =>
    have hv : app.ValidateTx t = .ok () := hvalid t (by simp)
    have h0 : totalGas ([] : List T) = 0 := rfl
    rw [h0] at hex hno ⊢
    have hadd : addUint64 st.1 (Tx.GetGasLimit t) = st.1 + Tx.GetGasLimit t := by
      unfold addUint64; omega
    simp only [List.nil_append]
    unfold processLoop
    simp only [hv, hG, if_true, hadd]
    have hgt : st.1 + Tx.GetGasLimit t > G := by omega
    simp only [hgt, if_true, Nat.add_zero, List.map_cons, List.map_nil]
  | cons q rest ih =>
    have hv : app.ValidateTx q = .ok () := hvalid q (by simp)
    have hgs : totalGas (q :: rest) = Tx.GetGasLimit q + totalGas rest := by simp [totalGas]
    rw [hgs] at hpre hex hno ⊢
    have hadd : addUint64 st.1 (Tx.GetGasLimit q) = st.1 + Tx.GetGasLimit q := by
      unfold addUint64; omega
    have hle : ¬ (st.1 + Tx.GetGasLimit q > G) := by omega
    have hstep : processLoop app G (q :: rest ++ t :: post) st =
        processLoop app G (rest ++ t :: post)
          (st.1 + Tx.GetGasLimit q, st.2 ++ [Call.ValidateTx q]) := by
      simp only [List.cons_append]
      conv_lhs => unfold processLoop
      simp only [hv, hG, if_true, hadd, hle, if_false]
    rw [hstep]
    rw [ih (st.1 + Tx.GetGasLimit q, st.2 ++ [Call.ValidateTx q])
      (fun x hx => hvalid x (by simp at hx ⊢; tauto))
      (by dsimp only; omega) (by dsimp only; omega) (by dsimp only; omega)]
    dsimp only
    congr 1
    · congr 2
      omega
    · simp

/-- Where the exact cumulative gas stays below `2^64`: with a real mempool, a
non-zero gas ceiling `G` and valid transactions, `ProcessHandler` rejects at
the shortest prefix `pre ++ [t]` whose cumulative gas exceeds `G`, the error
reports that prefix's total and `G`, and exactly the transactions of that
prefix were validated. -/
theorem ProcessHandler_rejects_at_first_exceeding_prefix {T : Type} [Tx T] (ts : TxSelector T)
    (mp : MempoolImpl T) (app : AppManager T) (pre : List T) (t : T) (post : List T)
    (Params : Option AppConsensusParams) (G : Nat)
    (hq : app.Query 0 = .ok (.QueryParamsResponse Params)) (hG : maxBlockGasOf Params = some G)
    (hG0 : G ≠ 0) (hvalid : ∀ x ∈ pre ++ [t], app.ValidateTx x = .ok ())
    (hpre : totalGas pre ≤ G) (hex : G < totalGas (pre ++ [t]))
    (hno : totalGas (pre ++ [t]) < 18446744073709551616) :
    (ProcessHandler ⟨.Impl mp, ts⟩ app (pre ++ t :: post) .ProcessProposal).result
      = .error (.gasExceeded (totalGas (pre ++ [t])) G) ∧
    (ProcessHandler ⟨.Impl mp, ts⟩ app (pre ++ t :: post) .ProcessProposal).calls
      = Call.Query 0 :: (pre ++ [t]).map Call.ValidateTx := by
  rw [totalGas_append_singleton] at hex hno ⊢
  have hloop := processLoop_rejects_at_first_exceeding app G pre t post (0, [Call.Query 0])
    (by omega) hvalid (by dsimp only; omega) (by dsimp only; omega) (by dsimp only; omega)
  rw [ProcessHandler_impl ts mp app _ Params G hq hG,
    ProcessHandler_impl_calls ts mp app _ Params G hq hG, hloop]
  dsimp only
  refine ⟨?_, ?_⟩
  · congr 2
    omega
  · simp

/-- The example of the specification: gas limits 40, 40, 40 under the ceiling
100 are rejected at the third transaction with an error naming 120 and 100. -/
theorem ProcessHandler_example_forty :
    (ProcessHandler (NewDefaultProposalHandler (.Impl fifoMempool)) (appAcceptAll 100)
      txsGasForty .ProcessProposal).result = .error (.gasExceeded 120 100) ∧
    (ProcessHandler (NewDefaultProposalHandler (.Impl fifoMempool)) (appAcceptAll 100)
      txsGasForty .ProcessProposal).calls
      = [.Query 0, .ValidateTx ⟨0, 40, 1⟩, .ValidateTx ⟨2, 40, 1⟩, .ValidateTx ⟨3, 40, 1⟩] := by
  refine ⟨by decide, by decide⟩

/-- C13, the code at gas ceiling 100 and three valid transactions declaring
gas 60, `2^64 - 10` and 60: the shortest prefix whose cumulative gas exceeds the
ceiling is the first two transactions (total `2^64 + 50`), but the running
`uint64` total wraps around to 50 there, so `ProcessHandler` goes on, validates
the third transaction and rejects there, reporting the total 110. -/
theorem C13_ProcessHandler_gas_prefix_wraps :
    (∀ tx ∈ txsGasWrapLate, IsUint64 (Tx.GetGasLimit tx)) ∧
    totalGas (txsGasWrapLate.take 1) ≤ 100 ∧
    totalGas (txsGasWrapLate.take 2) = 18446744073709551666 ∧
    (ProcessHandler (NewDefaultProposalHandler (.Impl fifoMempool)) (appAcceptAll 100)
      txsGasWrapLate .ProcessProposal).result = .error (.gasExceeded 110 100) ∧
    (ProcessHandler (NewDefaultProposalHandler (.Impl fifoMempool)) (appAcceptAll 100)
      txsGasWrapLate .ProcessProposal).calls
      = [.Query 0, .ValidateTx ⟨0, 60, 1⟩, .ValidateTx ⟨2, 18446744073709551606, 1⟩,
          .ValidateTx ⟨3, 60, 1⟩] := by
  refine ⟨by decide, by decide, by decide, by decide, by decide⟩

/-! ## PrepareHandler: errors of `mempool.Remove` -/

/-- One turn of the mempool loop at an invalid transaction whose removal
succeeds or fails with `ErrTxNotFound`: the loop goes on with the next
transaction. -/
theorem prepareMempoolLoop_step_tolerated {T : Type} [Tx T] (app : AppManager T)
    (mp : MempoolImpl T) (B G : Nat) (t : T) (next : List T)
    (st : TxSelector T × List (Call T)) (e : String) (hv : app.ValidateTx t = .error e)
    (hrem : mp.Remove t = none ∨ ∃ err, mp.Remove t = some err ∧ err.isTxNotFound = true) :
    prepareMempoolLoop app mp B G (t :: next) st =
      prepareMempoolLoop app mp B G next
        (st.1, st.2 ++ [Call.ValidateTx t, Call.MempoolRemove t]) := by
  conv_lhs => unfold prepareMempoolLoop
  simp only [hv]
  rcases hrem with h0 | ⟨err, h1, h2⟩
  · simp only [h0]
  · simp only [h1, h2, Bool.not_true, Bool.false_eq_true, if_false]

/-- One turn of the mempool loop at an invalid transaction whose removal fails
with an error other than `ErrTxNotFound`: the loop returns with that error. -/
theorem prepareMempoolLoop_step_fatal {T : Type} [Tx T] (app : AppManager T)
    (mp : MempoolImpl T) (B G : Nat) (t : T) (next : List T)
    (st : TxSelector T × List (Call T)) (e : String) (err : MempoolError)
    (hv : app.ValidateTx t = .error e) (h1 : mp.Remove t = some err)
    (h2 : err.isTxNotFound = false) :
    prepareMempoolLoop app mp B G (t :: next) st =
      (some err, st.1, st.2 ++ [Call.ValidateTx t, Call.MempoolRemove t]) := by
  conv_lhs => unfold prepareMempoolLoop
  simp only [hv, h1, h2, Bool.not_false, if_true]

/-- One turn of the mempool loop at a valid transaction: the transaction is
offered to the selector and the loop ends or goes on as the selector says. -/
theorem prepareMempoolLoop_step_valid {T : Type} [Tx T] (app : AppManager T)
    (mp : MempoolImpl T) (B G : Nat) (t : T) (next : List T)
    (st : TxSelector T × List (Call T)) (hv : app.ValidateTx t = .ok ()) :
    prepareMempoolLoop app mp B G (t :: next) st =
      if (st.1.SelectTxForProposal B G t).1 then
        (none, (st.1.SelectTxForProposal B G t).2,
          st.2 ++ [Call.ValidateTx t, Call.SelectTxForProposal B G t])
      else
        prepareMempoolLoop app mp B G next ((st.1.SelectTxForProposal B G t).2,
          st.2 ++ [Call.ValidateTx t, Call.SelectTxForProposal B G t]) := by
  conv_lhs => unfold prepareMempoolLoop
  simp only [hv]

/-- The error the mempool loop returns with is never `ErrTxNotFound`, it is
the error `Remove` gave for a transaction of this loop, and a removal failing
with another error ends the loop with that error. -/
theorem prepareMempoolLoop_remove_error {T : Type} [Tx T] (app : AppManager T)
    (mp : MempoolImpl T) (B G : Nat) (order : List T) (st : TxSelector T × List (Call T)) :
    ∃ extra,
      (prepareMempoolLoop app mp B G order st).2.2 = st.2 ++ extra ∧
      (∀ err, (prepareMempoolLoop app mp B G order st).1 = some err →
        err.isTxNotFound = false ∧
          ∃ tx, Call.MempoolRemove tx ∈ extra ∧ mp.Remove tx = some err) ∧
      (∀ tx err, Call.MempoolRemove tx ∈ extra → mp.Remove tx = some err →
        err.isTxNotFound = false →
        (prepareMempoolLoop app mp B G order st).1 = some err) := by
  induction order generalizing st with
  | nil =>
    refine ⟨[], by simp [prepareMempoolLoop], ?_, ?_⟩
    · intro err h; simp [prepareMempoolLoop] at h
    · intro tx err h; simp at h
  | cons t next ih =>
    rcases hv : app.ValidateTx t with e | u
    · by_cases hrem : mp.Remove t = none ∨
          ∃ err, mp.Remove t = some err ∧ err.isTxNotFound = true
      · rw [prepareMempoolLoop_step_tolerated app mp B G t next st e hv hrem]
        obtain ⟨extra, hc, h1, h2⟩ :=
          ih (st.1, st.2 ++ [Call.ValidateTx t, Call.MempoolRemove t])
        refine ⟨[Call.ValidateTx t, Call.MempoolRemove t] ++ extra, ?_, ?_, ?_⟩
        · rw [hc]; simp
        · intro err herr
          obtain ⟨hnf, tx, hmem, hr⟩ := h1 err herr
          exact ⟨hnf, tx, List.mem_append_right _ hmem, hr⟩
        · intro tx err hmem hr hnf
          rcases List.mem_append.mp hmem with h | h
          · have htx : tx = t := by simpa using h
            subst htx
            rcases hrem with h0 | ⟨err1, h3, h4⟩
            · rw [h0] at hr; cases hr
            · rw [h3] at hr
              injection hr with hr
              subst hr
              rw [h4] at hnf; cases hnf
          · exact h2 tx err h hr hnf
      · have hfatal : ∃ err, mp.Remove t = some err ∧ err.isTxNotFound = false := by
          rcases hr : mp.Remove t with _ | err
          · exact absurd (Or.inl hr) hrem
          · refine ⟨err, rfl, ?_⟩
            rcases hb : err.isTxNotFound with _ | _
            · rfl
            · exact absurd (Or.inr ⟨err, hr, hb⟩) hrem
        obtain ⟨err, h1, h2⟩ := hfatal
        rw [prepareMempoolLoop_step_fatal app mp B G t next st e err hv h1 h2]
        refine ⟨[Call.ValidateTx t, Call.MempoolRemove t], rfl, ?_, ?_⟩
        · intro err1 herr
          injection herr with herr
          subst herr
          exact ⟨h2, t, by simp, h1⟩
        · intro tx err1 hmem hr _
          have htx : tx = t := by simpa using hmem
          subst htx
          rw [h1] at hr
          injection hr with hr
          subst hr
          rfl
    · rw [prepareMempoolLoop_step_valid app mp B G t next st hv]
      split
      · refine ⟨[Call.ValidateTx t, Call.SelectTxForProposal B G t], rfl, ?_, ?_⟩
        · intro err herr; cases herr
        · intro tx err hmem; simp at hmem
      · obtain ⟨extra, hc, h1, h2⟩ :=
          ih ((st.1.SelectTxForProposal B G t).2,
            st.2 ++ [Call.ValidateTx t, Call.SelectTxForProposal B G t])
        refine ⟨[Call.ValidateTx t, Call.SelectTxForProposal B G t] ++ extra, ?_, ?_, ?_⟩
        · rw [hc]; simp
        · intro err herr
          obtain ⟨hnf, tx, hmem, hr⟩ := h1 err herr
          exact ⟨hnf, tx, List.mem_append_right _ hmem, hr⟩
        · intro tx err hmem hr hnf
          rcases List.mem_append.mp hmem with h | h
          · simp at h
          · exact h2 tx err h hr hnf

/-- C14: in the mempool-backed path of `PrepareHandler`, at an invalid
transaction: if `Remove` returns `ErrTxNotFound`, directly or wrapped, the loop
goes on with the next transaction, and the handler never returns such an error;
if `Remove` returns any other error the loop stops there and the handler
returns that error and no transaction list. -/
theorem C14_PrepareHandler_remove_errors {T : Type} [Tx T] (mp : MempoolImpl T)
    (ts : TxSelector T) (app : AppManager T) (txs : List T) (req : Request) :
    (∀ (B G : Nat) (memTx : T) (next : List T) (st : TxSelector T × List (Call T))
        (e : String) (err : MempoolError),
      app.ValidateTx memTx = .error e → mp.Remove memTx = some err →
      (err.isTxNotFound = true →
        prepareMempoolLoop app mp B G (memTx :: next) st =
          prepareMempoolLoop app mp B G next
            (st.1, st.2 ++ [Call.ValidateTx memTx, Call.MempoolRemove memTx])) ∧
      (err.isTxNotFound = false →
        prepareMempoolLoop app mp B G (memTx :: next) st =
          (some err, st.1, st.2 ++ [Call.ValidateTx memTx, Call.MempoolRemove memTx]))) ∧
    (∀ err, (PrepareHandler ⟨.Impl mp, ts⟩ app txs req).result = .error (.remove err) →
      err.isTxNotFound = false) ∧
    (∀ tx err, Call.MempoolRemove tx ∈ (PrepareHandler ⟨.Impl mp, ts⟩ app txs req).calls →
      mp.Remove tx = some err → err.isTxNotFound = false →
      (PrepareHandler ⟨.Impl mp, ts⟩ app txs req).result = .error (.remove err)) ∧
    (MempoolError.ErrTxNotFound.isTxNotFound = true ∧
      ∀ msg inner, (MempoolError.Wrap msg inner).isTxNotFound = inner.isTxNotFound) := by
  refine ⟨?_, ?_⟩
  · intro B G memTx next st e err hv hr
    exact ⟨fun hnf => prepareMempoolLoop_step_tolerated app mp B G memTx next st e hv
        (Or.inr ⟨err, hr, hnf⟩),
      fun hnf => prepareMempoolLoop_step_fatal app mp B G memTx next st e err hv hr hnf⟩
  rw [← and_assoc]
  refine ⟨?_, ⟨rfl, fun _ _ => rfl⟩⟩
  · cases req with
    | ProcessProposal => simp [PrepareHandler]
    | Other name => simp [PrepareHandler]
    | PrepareProposal MaxTxBytes =>
      rcases hq : app.Query 0 with e | resp
      · simp [PrepareHandler, hq]
      · cases resp with
        | Other name => simp [PrepareHandler, hq]
        | QueryParamsResponse Params =>
          rcases hG : maxBlockGasOf Params with _ | G
          · simp [PrepareHandler, hq, hG]
          · rw [PrepareHandler_impl mp ts app txs MaxTxBytes Params G hq hG]
            obtain ⟨extra, hc, h1, h2⟩ :=
              prepareMempoolLoop_remove_error app mp (toUint64 MaxTxBytes) G (mp.Select txs)
                (ts, [Call.Query 0, Call.MempoolSelect txs])
            generalize prepareMempoolLoop app mp (toUint64 MaxTxBytes) G (mp.Select txs)
              (ts, [Call.Query 0, Call.MempoolSelect txs]) = r at hc h1 h2
            obtain ⟨r1, r2, r3⟩ := r
            dsimp only at hc h1 h2
            subst hc
            have hmem : ∀ (tx : T) (suffix : List (Call T)),
                (∀ c ∈ suffix, c = Call.SelectedTxs ∨ c = Call.Clear) →
                Call.MempoolRemove tx ∈
                  [Call.Query 0, Call.MempoolSelect txs] ++ extra ++ suffix →
                Call.MempoolRemove tx ∈ extra := by
              intro tx suffix hsuf h
              rcases List.mem_append.mp h with h3 | h3
              · rcases List.mem_append.mp h3 with h4 | h4
                · simp at h4
                · exact h4
              · rcases hsuf _ h3 with h5 | h5 <;> cases h5
            cases r1 with
            | some err0 =>
              dsimp only
              refine ⟨?_, ?_⟩
              · intro err herr
                injection herr with herr
                injection herr with herr
                subst herr
                exact (h1 err0 rfl).1
              · intro tx err hm hr hnf
                have hx := hmem tx [Call.Clear]
                  (by intro c hcm; right; simpa using hcm) hm
                have := h2 tx err hx hr hnf
                injection this with this
                subst this
                rfl
            | none =>
              dsimp only
              refine ⟨?_, ?_⟩
              · intro err herr; cases herr
              · intro tx err hm hr hnf
                have hx := hmem tx [Call.SelectedTxs, Call.Clear]
                  (by intro c hcm; simpa using hcm) hm
                have := h2 tx err hx hr hnf
                cases this

/-- C14 at a concrete input: a mempool whose `Remove` fails with an unrelated
error and an iterator yielding a valid, an invalid and a valid transaction: the
handler returns the error of `Remove`. -/
theorem C14_PrepareHandler_remove_errors_witness :
    (PrepareHandler ⟨.Impl mempoolRemoveFails, NewDefaultTxSelector⟩ (appRejectOne 0)
      txsInvalidMiddle (.PrepareProposal 1000)).result
      = .error (.remove (.Other "pool closed")) ∧
    (PrepareHandler ⟨.Impl mempoolWrappedNotFound, NewDefaultTxSelector⟩ (appRejectOne 0)
      txsInvalidMiddle (.PrepareProposal 1000)).result = .ok [⟨0, 10, 1⟩, ⟨2, 10, 1⟩] :=
  ⟨(C14_PrepareHandler_remove_errors mempoolRemoveFails NewDefaultTxSelector (appRejectOne 0)
      txsInvalidMiddle (.PrepareProposal 1000)).2.2.1 ⟨1, 10, 1⟩ (.Other "pool closed")
      (by decide) rfl rfl,
    by decide⟩

/-! ## Wire translation -/

/-- What `intoABCITxResults` does: the output has the length of the input; a
result without error is translated to a populated entry with empty codespace,
code 0, empty log, the gas values converted to `int64` and the translated
events; a result with an error leaves its entry nil. -/
theorem intoABCITxResults_entries (results : List TxResult) (indexSet : List String) :
    (intoABCITxResults results indexSet).length = results.length ∧
    ∀ (i : Nat) (r : TxResult), results[i]? = some r →
      (r.Error = none →
        (intoABCITxResults results indexSet)[i]? = some (some
          { Codespace := "", Code := 0, Log := ""
            GasWanted := toInt64 r.GasWanted, GasUsed := toInt64 r.GasUsed
            Events := intoABCIEvents r.Events indexSet })) ∧
      (r.Error ≠ none → (intoABCITxResults results indexSet)[i]? = some none) := by
  refine ⟨by simp [intoABCITxResults], ?_⟩
  intro i r hr
  unfold intoABCITxResults
  rw [List.getElem?_map, hr]
  refine ⟨?_, ?_⟩
  · intro hnone
    simp [hnone, responseExecTxResultWithEvents, ABCIInfo]
  · intro hsome
    rcases he : r.Error with _ | e
    · exact absurd he hsome
    · simp [he]

/-- C17, the code at a single failed transaction result (out of gas, gas
wanted 10, gas used 10): the loop skips results whose `Error` is not nil, so the
entry of the returned list is left nil instead of a wire result carrying the
codespace, code, log and gas values of the failure. -/
theorem C17_intoABCITxResults_failed_nil :
    txResultFailed.Error ≠ none ∧
    intoABCITxResults [txResultFailed] [] = [none] ∧
    responseExecTxResultWithEvents txResultFailed.Error txResultFailed.GasWanted
      txResultFailed.GasUsed (intoABCIEvents txResultFailed.Events []) false
      = { Codespace := "sdk", Code := 11, Log := "out of gas", GasWanted := 10, GasUsed := 10,
          Events := [] } := by
  refine ⟨by decide, by decide, by decide⟩

/-- C18: for every list of events and every index allow-set, `intoABCIEvents`
returns the same number of events in the same order, each with the same type
and the same attributes (key and value) in the same order, and an attribute is
flagged for indexing exactly when the allow-set is empty or contains
`"<type>.<key>"`; `finalizeBlockResponse` emits the begin-block events followed
by the end-block events. -/
theorem C18_intoABCIEvents (events : List Event) (indexSet : List String)
    (blockResponse : BlockResponse) (cp : Option WireConsensusParams) (appHash : List UInt8) :
    (intoABCIEvents events indexSet).length = events.length ∧
    (∀ (i : Nat) (e : Event), events[i]? = some e →
      ∃ a : ABCIEvent, (intoABCIEvents events indexSet)[i]? = some a ∧ a.Type_ = e.Type_ ∧
        a.Attributes.length = e.Attributes.length ∧
        ∀ (j : Nat) (attr : Attribute), e.Attributes[j]? = some attr →
          ∃ b : ABCIEventAttribute, a.Attributes[j]? = some b ∧ b.Key = attr.Key ∧ b.Value = attr.Value ∧
            (b.Index = true ↔ (indexSet = [] ∨ (e.Type_ ++ "." ++ attr.Key) ∈ indexSet))) ∧
    (∃ resp, finalizeBlockResponse blockResponse cp appHash indexSet = .ok resp ∧
      resp.Events = intoABCIEvents blockResponse.BeginBlockEvents indexSet ++
        intoABCIEvents blockResponse.EndBlockEvents indexSet) := by
  refine ⟨by simp [intoABCIEvents], ?_, ?_⟩
  · intro i e he
    refine ⟨{ Type_ := e.Type_
              Attributes := e.Attributes.map (fun attr =>
                { Key := attr.Key, Value := attr.Value
                  Index := decide ((e.Type_ ++ "." ++ attr.Key) ∈ indexSet) ||
                    decide (indexSet.length = 0) }) }, ?_, rfl, ?_, ?_⟩
    · unfold intoABCIEvents
      dsimp only
      rw [List.getElem?_map, he]
      rfl
    · simp
    · intro j attr hattr
      refine ⟨{ Key := attr.Key, Value := attr.Value
                Index := decide ((e.Type_ ++ "." ++ attr.Key) ∈ indexSet) ||
                  decide (indexSet.length = 0) }, ?_, rfl, rfl, ?_⟩
      · dsimp only
        rw [List.getElem?_map, hattr]
        rfl
      · dsimp only
        rw [Bool.or_eq_true, decide_eq_true_eq, decide_eq_true_eq, List.length_eq_zero]
        exact Or.comm
  · refine ⟨_, rfl, ?_⟩
    simp [intoABCIEvents]

/-- C18 at a concrete input: with the allow-set holding only
`"transfer.sender"`, that attribute is flagged and the others are not. -/
theorem C18_intoABCIEvents_witness :
    intoABCIEvents eventsExample ["transfer.sender"] =
      [{ Type_ := "transfer", Attributes := [⟨"sender", "alice", true⟩, ⟨"amount", "5", false⟩] },
       { Type_ := "mint", Attributes := [⟨"amount", "7", false⟩] }] ∧
    (intoABCIEvents eventsExample ["transfer.sender"]).length = eventsExample.length :=
  ⟨by decide,
    (C18_intoABCIEvents eventsExample ["transfer.sender"] ⟨[], [], [], []⟩ none []).1⟩

/-- C19: for every list of validator updates, `intoABCIValidatorUpdates`
returns a list of the same length and order in which entry `i` has the power
and the public-key bytes of update `i`, tagged as a secp256k1 key exactly when
the key type of update `i` is `"secp256k1"` and as an ed25519 key for every
other key type. -/
theorem C19_intoABCIValidatorUpdates (updates : List ValidatorUpdate) :
    (intoABCIValidatorUpdates updates).length = updates.length ∧
    ∀ (i : Nat) (u : ValidatorUpdate), updates[i]? = some u →
      ∃ v : ABCIValidatorUpdate, (intoABCIValidatorUpdates updates)[i]? = some v ∧ v.Power = u.Power ∧
        (u.PubKeyType = "secp256k1" → v.PubKey = .Secp256K1 u.PubKey) ∧
        (u.PubKeyType ≠ "secp256k1" → v.PubKey = .Ed25519 u.PubKey) := by
  refine ⟨by simp [intoABCIValidatorUpdates], ?_⟩
  intro i u hu
  refine ⟨if u.PubKeyType = "secp256k1" then { PubKey := .Secp256K1 u.PubKey, Power := u.Power }
    else { PubKey := .Ed25519 u.PubKey, Power := u.Power }, ?_, ?_, ?_, ?_⟩
  · unfold intoABCIValidatorUpdates
    rw [List.getElem?_map, hu]
    rfl
  · split <;> rfl
  · intro hk
    rw [if_pos hk]
  · intro hk
    rw [if_neg hk]

/-- C19 at a concrete input: a secp256k1 update and an update without key
type. -/
theorem C19_intoABCIValidatorUpdates_witness :
    intoABCIValidatorUpdates validatorUpdatesExample =
      [{ PubKey := .Secp256K1 [1, 2], Power := 10 }, { PubKey := .Ed25519 [3], Power := 0 }] ∧
    (intoABCIValidatorUpdates validatorUpdatesExample).length
      = validatorUpdatesExample.length :=
  ⟨by decide, (C19_intoABCIValidatorUpdates validatorUpdatesExample).1⟩

/-! ## Retention height with pruning disabled -/

/-- The statement-by-statement run of `GetBlockRetentionHeight` returns the
value of `GetBlockRetentionHeight`. -/
theorem GetBlockRetentionHeightRun_value (cfg : Config) (snapshotManager : Option Int)
    (cp : ConsensusParams) (commitHeight : Int) :
    (GetBlockRetentionHeightRun cfg snapshotManager cp commitHeight).1
      = GetBlockRetentionHeight cfg snapshotManager cp commitHeight := by
  unfold GetBlockRetentionHeightRun GetBlockRetentionHeight
  by_cases hm : cfg.MinRetainBlocks = 0
  · simp only [hm, if_true]
  · simp only [hm, if_false]
    rcases snapshotManager with _ | w
    · dsimp only
      split <;> rfl
    · dsimp only
      by_cases hw : w > 0
      · simp only [hw, if_true]
        split <;> rfl
      · simp only [hw, if_false]
        split <;> rfl

/-- With pruning enabled and a snapshot manager set, the snapshot manager is
called exactly once. -/
theorem GetBlockRetentionHeightRun_calls (cfg : Config) (w : Int) (cp : ConsensusParams)
    (commitHeight : Int) (hm : cfg.MinRetainBlocks ≠ 0) :
    (GetBlockRetentionHeightRun cfg (some w) cp commitHeight).2
      = [.GetSnapshotBlockRetentionHeights] := by
  unfold GetBlockRetentionHeightRun
  simp only [hm, if_false]
  by_cases hw : w > 0
  · simp only [hw, if_true]
    split <;> rfl
  · simp only [hw, if_false]
    split <;> rfl

/-- C21: when the configured `MinRetainBlocks` is 0, `GetBlockRetentionHeight`
returns 0 for every commit height, every consensus params (also without
evidence params) and every snapshot manager, and it makes no call on the
snapshot manager. -/
theorem C21_GetBlockRetentionHeight_disabled (cfg : Config) (snapshotManager : Option Int)
    (cp : ConsensusParams) (commitHeight : Int) (hm : cfg.MinRetainBlocks = 0) :
    GetBlockRetentionHeight cfg snapshotManager cp commitHeight = 0 ∧
    GetBlockRetentionHeightRun cfg snapshotManager cp commitHeight = (0, []) := by
  unfold GetBlockRetentionHeight GetBlockRetentionHeightRun
  simp only [hm, if_true, and_self]

/-- C21 at a concrete input: pruning disabled, a snapshot manager reporting a
window of 100, no evidence params, commit height 50. -/
theorem C21_GetBlockRetentionHeight_disabled_witness :
    cfgNoPruning.MinRetainBlocks = 0 ∧
    GetBlockRetentionHeight cfgNoPruning (some 100) ⟨none⟩ 50 = 0 ∧
    GetBlockRetentionHeightRun cfgNoPruning (some 100) ⟨none⟩ 50 = (0, []) :=
  ⟨rfl, C21_GetBlockRetentionHeight_disabled cfgNoPruning (some 100) ⟨none⟩ 50 rfl⟩

/-! ## Absent sub-messages of the consensus params -/

/-- Given a response of the consensus-params type, `GetConsensusParams` panics
exactly when the `Params` message or one of the sections it reads is absent. -/
theorem GetConsensusParams_panic_iff {T : Type} (app : AppManager T)
    (storeLatestVersion : Nat × Option String) (Params : Option AppConsensusParams)
    (hq : app.Query storeLatestVersion.1 = .ok (.QueryParamsResponse Params)) :
    GetConsensusParams app storeLatestVersion = .panic ↔
      ¬ ∃ p ev d b v ver abci, Params = some p ∧ p.Evidence = some ev ∧
        ev.MaxAgeDuration = some d ∧ p.Block = some b ∧ p.Validator = some v ∧
        p.Version = some ver ∧ p.Abci = some abci := by
  unfold GetConsensusParams
  simp only [hq]
  rcases Params with _ | p
  · simp
  · rcases hE : p.Evidence with _ | ev
    · simp [hE]
    · rcases hD : ev.MaxAgeDuration with _ | d
      · simp [hE, hD]
      · rcases hB : p.Block with _ | b <;> rcases hV : p.Validator with _ | v <;>
          rcases hVer : p.Version with _ | ver <;> rcases hA : p.Abci with _ | abci <;>
          simp [hE, hD, hB, hV, hVer, hA]

/-- With the `Params` message present, the gas ceiling of the two handlers is
defined, and it is 0 when the `Block` section is absent. -/
theorem maxBlockGasOf_some (p : AppConsensusParams) :
    ∃ G, maxBlockGasOf (some p) = some G ∧ (p.Block = none → G = 0) := by
  unfold maxBlockGasOf
  rcases hB : p.Block with _ | b
  · exact ⟨0, by simp only [hB], fun _ => rfl⟩
  · exact ⟨toUint64 b.MaxGas, by simp only [hB], fun h => by cases h⟩

/-- `PrepareHandler` panics exactly when, on a PrepareProposal request, the
App answers the query with a consensus-params response whose `Params` message
is absent. -/
theorem PrepareHandler_panic_iff {T : Type} [Tx T] (h : DefaultProposalHandler T)
    (app : AppManager T) (txs : List T) (req : Request) :
    (PrepareHandler h app txs req).result = .panic ↔
      (∃ m, req = .PrepareProposal m) ∧ app.Query 0 = .ok (.QueryParamsResponse none) := by
  unfold PrepareHandler
  cases req with
  | ProcessProposal => simp
  | Other name => simp
  | PrepareProposal m =>
    dsimp only
    rcases hq : app.Query 0 with e | resp
    · simp
    · cases resp with
      | Other name => simp
      | QueryParamsResponse Params =>
        dsimp only
        rcases Params with _ | p
        · simp [maxBlockGasOf]
        · obtain ⟨G, hG, _⟩ := maxBlockGasOf_some p
          rw [hG]
          dsimp only
          rcases h with ⟨mp, ts⟩
          cases mp with
          | Nil => simp
          | NoOp => simp
          | Impl m1 =>
            dsimp only
            split <;> simp

/-- `ProcessHandler` panics exactly when, with a real mempool and on a
ProcessProposal request, the App answers the query with a consensus-params
response whose `Params` message is absent. -/
theorem ProcessHandler_panic_iff {T : Type} [Tx T] (h : DefaultProposalHandler T)
    (app : AppManager T) (txs : List T) (req : Request) :
    (ProcessHandler h app txs req).result = .panic ↔
      h.mempool.isNilOrNoOp = false ∧ req = .ProcessProposal ∧
        app.Query 0 = .ok (.QueryParamsResponse none) := by
  unfold ProcessHandler
  rcases hmp : h.mempool.isNilOrNoOp with _ | _
  · simp only [Bool.false_eq_true, if_false, true_and]
    cases req with
    | PrepareProposal m => simp
    | Other name => simp
    | ProcessProposal =>
      dsimp only
      rcases hq : app.Query 0 with e | resp
      · simp
      · cases resp with
        | Other name => simp
        | QueryParamsResponse Params =>
          dsimp only
          rcases Params with _ | p
          · simp [maxBlockGasOf]
          · obtain ⟨G, hG, _⟩ := maxBlockGasOf_some p
            rw [hG]
            dsimp only
            split <;> simp
  · simp

/-- C22, the code at responses of the consensus-params type with an absent
message: with the `Evidence` section absent `GetConsensusParams` dereferences
the nil pointer `r.Params.Evidence` and panics; with the `Params` message absent
`PrepareHandler` (here with the no-op mempool) and `ProcessHandler` (with a real
mempool) dereference the nil pointer returned by `GetParams()` at `.Block` and
panic. An absent `Block` section alone is handled and means gas ceiling 0. -/
theorem C22_absent_message_panics :
    GetConsensusParams appParamsNoEvidence (7, none) = .panic ∧
    (PrepareHandler (NewDefaultProposalHandler .NoOp) appParamsAbsent txsGasForty
      (.PrepareProposal 1000)).result = .panic ∧
    (ProcessHandler (NewDefaultProposalHandler (.Impl fifoMempool)) appParamsAbsent txsGasForty
      .ProcessProposal).result = .panic ∧
    (PrepareHandler (NewDefaultProposalHandler .NoOp) appParamsNoBlock txsGasForty
      (.PrepareProposal 1000)).result = .ok txsGasForty ∧
    (ProcessHandler (NewDefaultProposalHandler (.Impl fifoMempool)) appParamsNoBlock txsGasForty
      .ProcessProposal).result = .ok () := by
  refine ⟨by decide, by decide, by decide, by decide, by decide⟩

/-! ## x/mint: the block reward -/

/-- The halving loop divides by a power of two. -/
theorem halvingLoop_eq (n r : Nat) : halvingLoop n r = r / 2 ^ n := by
  induction n generalizing r with
  | zero => simp [halvingLoop]
  | succ k ih =>
    unfold halvingLoop
    rw [ih, Nat.div_div_eq_div_mul, pow_succ, Nat.mul_comm]

/-- The reward of the specification never exceeds 210000000. -/
theorem rewardSpec_le (b h : Nat) : rewardSpec b h ≤ 210000000 := by
  unfold rewardSpec
  exact le_trans (Nat.div_le_self _ _) (Nat.div_le_self _ _)

/-- Where `4 * BlocksPerYear` fits a `uint64`, `BeginBlocker` does not divide
by zero and computes the reward of the specification. -/
theorem BeginBlocker_eq_rewardSpec (b : Nat) (height : Int) (hb : 0 < b)
    (hb4 : 4 * b < 18446744073709551616) (hh : 0 ≤ height) (hh64 : IsInt64 height) :
    BeginBlocker b height = some ((rewardSpec b height.toNat : Nat) : Int) := by
  unfold IsInt64 at hh64
  have hdiv : mulUint64 b 4 = 4 * b := by unfold mulUint64; omega
  have hne : 4 * b ≠ 0 := by omega
  have hu : toUint64 height = height.toNat := by unfold toUint64; omega
  have hk : height.toNat / (4 * b) ≤ height.toNat := Nat.div_le_self _ _
  have hk63 : height.toNat / (4 * b) < 9223372036854775808 :=
    lt_of_le_of_lt hk (by omega)
  have hk64 : (toInt64 (height.toNat / (4 * b))).toNat = height.toNat / (4 * b) := by
    rw [toInt64_of_lt _ hk63]
    exact Int.toNat_ofNat _
  have hr : rewardSpec b height.toNat < 9223372036854775808 :=
    lt_of_le_of_lt (rewardSpec_le b height.toNat) (by decide)
  unfold BeginBlocker
  simp only [hdiv, hne, if_false, hu, hk64, halvingLoop_eq]
  have hrw : 210000000 / (4 * b) / 2 ^ (height.toNat / (4 * b)) = rewardSpec b height.toNat := rfl
  rw [hrw, toInt64_of_lt _ hr]

/-- The reward of the specification is non-increasing in the block height. -/
theorem rewardSpec_antitone (b h1 h2 : Nat) (hle : h1 ≤ h2) :
    rewardSpec b h2 ≤ rewardSpec b h1 := by
  unfold rewardSpec
  apply Nat.div_le_div_left
  · exact Nat.pow_le_pow_right (by decide) (Nat.div_le_div_right hle)
  · exact Nat.pos_pow_of_pos _ (by decide)

/-- The reward of the specification is constant within each period of `4 * b`
blocks. -/
theorem rewardSpec_period (b h1 h2 : Nat) (hp : h1 / (4 * b) = h2 / (4 * b)) :
    rewardSpec b h1 = rewardSpec b h2 := by
  unfold rewardSpec
  rw [hp]

/-- C23, the code at `BlocksPerYear = 2^62` and at `BlocksPerYear = 2^62 + 1`,
block height 0: the `uint64` product `BlocksPerYear * 4` wraps around to 0 in the
first case, so the division panics, and to 4 in the second, so the reward is
`210000000 / 4 = 52500000` instead of `floor(210000000 / (4 * b)) = 0`. -/
theorem C23_BeginBlocker_divisor_wraps :
    IsUint64 4611686018427387904 ∧
    BeginBlocker 4611686018427387904 0 = none ∧
    BeginBlocker 4611686018427387905 0 = some 52500000 ∧
    rewardSpec 4611686018427387905 0 = 0 := by
  refine ⟨by decide, by decide, by decide, by decide⟩

end CometBFT
